import Mathlib

/-!
LexiMap API (`src/index.js`): lexeme assembly.

A shallow embedding of `categorizeSense`, `datamuse`, `buildLexeme` and the
`GET /lexeme/:word` route handler, followed by the properties proved about them.

Conventions of the embedding.

* JavaScript strings are Lean `String`s.
* The language built-ins `String.prototype.toLowerCase` and `encodeURIComponent`, and the two
  collaborators (`wordpos.lookup`, `fetch` with `Response.json`), are the fields of `Env`;
  every general theorem holds for every `Env`.
* An `async` function is a function returning a `Run`: the collaborator calls it makes and
  either its value or the error it rejects with.
-/

namespace LexiMap

/-! Regular expressions of the rule table -/

/-- The class `\w` of a regular expression without the `u` flag: ASCII letters, digits, `_`. -/
def isWordChar (c : Char) : Bool := c.isAlphanum || c == '_'

/-- Whether the character at index `e` exists and is a word character. -/
def isWordCharAt (input : List Char) (e : Nat) : Bool :=
  match input.get? e with
  | some c => isWordChar c
  | none => false

/-- The assertion `\b` at index `e`: exactly one of the characters before and at `e` is a word
character (the positions before the start and after the end count as non-word). -/
def wordBoundary (input : List Char) (e : Nat) : Bool :=
  (if e = 0 then false else isWordCharAt input (e - 1)) != isWordCharAt input e

/-- Case folding of the `i` flag. The patterns hold ASCII letters only, and without the `u` flag
no character outside ASCII folds to an ASCII letter, so folding ASCII letters is enough. -/
def canonicalize (c : Char) : Char := c.toUpper

/-- A literal term of an alternation matches at index `e`, ignoring case. -/
def literalAt (term : List Char) (input : List Char) (e : Nat) : Bool :=
  ((input.drop e).take term.length).map canonicalize == term.map canonicalize

/-- One entry of `CATEGORY_RULES`: the regex is `/\b(t1|t2|...)\b/i` for the listed terms. -/
structure Rule where
  cat : String
  terms : List String

/-- The regex of rule `r` matches starting at index `e`. -/
def Rule.matchAt (r : Rule) (input : List Char) (e : Nat) : Bool :=
  wordBoundary input e &&
    r.terms.any (fun t => literalAt t.data input e && wordBoundary input (e + t.length))

/-- The call `r.regex.test(gloss)`: the regex matches at some index. -/
def Rule.test (r : Rule) (gloss : String) : Bool :=
  (List.range (gloss.length + 1)).any (fun e => r.matchAt gloss.data e)

def CATEGORY_RULES : List Rule := [
  { cat := "Physical", terms := ["grab", "hold", "touch", "object", "hand", "surface", "edge",
      "weight", "move", "body", "material", "seize", "grip"] },
  { cat := "Mental", terms := ["think", "understand", "idea", "concept", "intellect", "imagine",
      "know", "believe", "plan", "comprehend", "grasp"] },
  { cat := "Finance", terms := ["money", "cost", "charge", "price", "debt", "credit", "bank",
      "pay", "fee"] },
  { cat := "Place", terms := ["river", "bank", "shore", "coast", "location", "place", "site",
      "ground"] },
  { cat := "Sound", terms := ["sound", "tone", "sharp", "flat", "loud", "pitch", "noise"] },
  { cat := "Value", terms := ["good", "bad", "moral", "nice", "awful", "worthy", "just"] },
  { cat := "Action", terms := ["run", "charge", "attack", "act", "do", "perform", "execute",
      "proceed", "go", "move"] }]

/-! `Set` of strings -/

/-- The method `Set.prototype.add`: a value already present is not added again; a new value goes
last in insertion order. -/
def setAdd (s : List String) (x : String) : List String :=
  if x ∈ s then s else s ++ [x]

/-- The call `Array.from(new Set(xs))`: the values of `xs` in order of first occurrence. -/
def newSet (xs : List String) : List String := xs.foldl setAdd []

/-! `categorizeSense` -/

def categorizeSense (gloss : String) : List String :=
  let hits := (CATEGORY_RULES.filter (fun r => r.test gloss)).map (fun r => r.cat)
  (newSet hits).take 3

/-! Gloss normalisation -/

/-- The class `\s`, which is also what `trim` strips: `WhiteSpace` and `LineTerminator`. -/
def isWhiteSpace (c : Char) : Bool :=
  [0x9, 0xA, 0xB, 0xC, 0xD, 0x20, 0xA0, 0x1680, 0x2028, 0x2029, 0x202F, 0x205F, 0x3000,
    0xFEFF].contains c.toNat || (0x2000 ≤ c.toNat && c.toNat ≤ 0x200A)

/-- The call `.replace(/\s+/g, ' ')`: every maximal run of whitespace becomes one space.
`inRun` says that the previous character was whitespace. -/
def collapseFrom : Bool → List Char → List Char
  | _, [] => []
  | inRun, c :: cs =>
    if isWhiteSpace c then
      if inRun then collapseFrom true cs else ' ' :: collapseFrom true cs
    else c :: collapseFrom false cs

def collapseWhitespace (cs : List Char) : List Char := collapseFrom false cs

/-- The method `String.prototype.trim`. -/
def trim (cs : List Char) : List Char :=
  ((cs.dropWhile isWhiteSpace).reverse.dropWhile isWhiteSpace).reverse

/-- A lookup result of WordPOS; only `gloss` is read (`none`: the field is absent). -/
structure Entry where
  gloss : Option String

/-- The expression `String(s.gloss || '').replace(/\s+/g, ' ').trim()`. -/
def normalizeGloss (s : Entry) : String :=
  String.mk (trim (collapseWhitespace (s.gloss.getD "").data))

/-! Senses -/

structure Sense where
  id : String
  gloss : String
  categories : List String
  conf : ℚ

/-- The sense pushed for the entry at index `i` of the lookup result. -/
def mkSense (i : Nat) (gloss : String) : Sense :=
  { id := "s" ++ toString i, gloss := gloss, categories := categorizeSense gloss, conf := 9 / 10 }

/-- The loop `for (const [i, s] of lookup.entries())`, from index `i` on, with the current
`seen` set and `senses` array; returns the final `senses`. -/
def sensesLoop : Nat → List Entry → List String → List Sense → List Sense
  | _, [], _, senses => senses
  | i, s :: rest, seen, senses =>
    let gloss := normalizeGloss s
    if gloss = "" ∨ gloss ∈ seen then sensesLoop (i + 1) rest seen senses
    else sensesLoop (i + 1) rest (setAdd seen gloss) (senses ++ [mkSense i gloss])

/-- The array `senses` when the loop over the lookup result ends. -/
def emittedSenses (lookup : List Entry) : List Sense := sensesLoop 0 lookup [] []

def fallbackSense (w : String) : Sense :=
  { id := "s0", gloss := "No definition found for “" ++ w ++ "”", categories := [], conf := 0 }

/-- The array `senses` of `buildLexeme` once the fallback has been added. -/
def resolveSenses (w : String) (lookup : List Entry) : List Sense :=
  let senses := emittedSenses lookup
  if senses.length = 0 then senses ++ [fallbackSense w] else senses

/-! Errors, decoded JSON values and the collaborators -/

/-- A value thrown, or a promise rejection. -/
inductive JsError where
  /-- Raised by a collaborator: the lookup, the fetch, or the decoding of a body. -/
  | thrown (message : String)
  /-- The error `TypeError` raised by the evaluation of the code itself. -/
  | typeError (message : String)
  deriving DecidableEq, Repr

/-- A value produced by `Response.json()`. -/
inductive Json where
  | null
  | bool (b : Bool)
  | num (q : ℚ)
  | str (s : String)
  | arr (elems : List Json)
  /-- An object: its own properties, each key once. -/
  | obj (members : List (String × Json))

/-- How a call `fetch(url)` ends. -/
inductive FetchOutcome where
  /-- The promise rejects (network error, timeout). -/
  | rejected (e : JsError)
  /-- The promise resolves to a response `r`: `ok` is `r.ok`, `body` is how `r.json()` ends. -/
  | response (ok : Bool) (body : Except JsError Json)

/-- The built-ins and collaborators the program calls. -/
structure Env where
  /-- The method `String.prototype.toLowerCase`. -/
  toLowerCase : String → String
  encodeURIComponent : String → String
  /-- The call `wordpos.lookup(w, cb)`: the value passed to the callback (`none`: a falsy
  one), or the error thrown. -/
  lookup : String → Except JsError (Option (List Entry))
  fetch : String → FetchOutcome

/-- A collaborator call, or the log line of the route handler. -/
inductive Call where
  | lookup (w : String)
  | fetch (url : String)
  /-- The call `r.json()` on the response to the request for `url`. -/
  | json (url : String)
  | consoleError (e : JsError)
  deriving DecidableEq, Repr

/-- A finished `async` call: the calls it made, and its value or the error it rejects with. -/
structure Run (α : Type) where
  calls : List Call
  result : Except JsError α

/-! `datamuse` -/

/-- The property read `d.word`: `none` is `undefined`; reading a property of `null` throws. -/
def readWord : Json → Except JsError (Option Json)
  | .null => .error (.typeError "Cannot read properties of null (reading 'word')")
  | .obj members => .ok (members.lookup "word")
  | _ => .ok none

/-- The conversion `ToBoolean` of a property value. -/
def truthy : Option Json → Bool
  | none => false
  | some .null => false
  | some (.bool b) => b
  | some (.num q) => q ≠ 0
  | some (.str s) => s ≠ ""
  | some (.arr _) => true
  | some (.obj _) => true

/-- The callback `d => (d.word || '').toLowerCase()`. -/
def wordOf (env : Env) (d : Json) : Except JsError String :=
  match readWord d with
  | .error e => .error e
  | .ok v =>
    match (if truthy v then v else some (.str "")) with
    | some (.str s) => .ok (env.toLowerCase s)
    | _ => .error (.typeError "(d.word || \"\").toLowerCase is not a function")

/-- The method `Array.prototype.map` with a callback that may throw: the elements are visited
in order and the first error ends the call. -/
def arrayMap {α β : Type} (f : α → Except JsError β) : List α → Except JsError (List β)
  | [] => .ok []
  | a :: rest =>
    match f a with
    | .error e => .error e
    | .ok b =>
      match arrayMap f rest with
      | .error e => .error e
      | .ok bs => .ok (b :: bs)

/-- The expression `j.map(d => (d.word || '').toLowerCase()).filter(Boolean)`. -/
def mapWords (env : Env) : Json → Except JsError (List String)
  | .arr elems =>
    match arrayMap (wordOf env) elems with
    | .error e => .error e
    | .ok ws => .ok (ws.filter (fun s => s ≠ ""))
  | _ => .error (.typeError "j.map is not a function")

def datamuseUrl (env : Env) (word rel : String) : String :=
  "https://api.datamuse.com/words?" ++ rel ++ "=" ++ env.encodeURIComponent word

def datamuse (env : Env) (word rel : String) : Run (List String) :=
  let url := datamuseUrl env word rel
  match env.fetch url with
  | .rejected e => ⟨[.fetch url], .error e⟩
  | .response ok body =>
    if !ok then ⟨[.fetch url], .ok []⟩
    else
      match body with
      | .error e => ⟨[.fetch url, .json url], .error e⟩
      | .ok j => ⟨[.fetch url, .json url], mapWords env j⟩

/-! `buildLexeme` -/

structure Lexeme where
  id : String
  language : String
  senses : List Sense
  synonyms : List String
  antonyms : List String

/-- The call `Promise.all([a, b])` on two finished calls, both already started. When both reject,
the error kept here is the first in array order (the program does not read it). -/
def promiseAll2 {α : Type} (a b : Run α) : Run (α × α) :=
  ⟨a.calls ++ b.calls,
    match a.result, b.result with
    | .ok x, .ok y => .ok (x, y)
    | .error e, _ => .error e
    | .ok _, .error e => .error e⟩

/-- The function `buildLexeme(word)`; `none` is an absent (falsy) argument. The calls of the two
relation requests are listed request by request; their interleaving is not modelled. -/
def buildLexeme (env : Env) (word : Option String) : Run Lexeme :=
  let w := env.toLowerCase (word.getD "")
  match env.lookup w with
  | .error e => ⟨[.lookup w], .error e⟩
  | .ok results =>
    let senses := resolveSenses w (results.getD [])
    let both := promiseAll2 (datamuse env w "rel_syn") (datamuse env w "rel_ant")
    ⟨.lookup w :: both.calls,
      match both.result with
      | .error e => .error e
      | .ok (synonyms, antonyms) =>
        .ok { id := w, language := "en", senses := senses, synonyms := synonyms,
              antonyms := antonyms }⟩

/-! The route `GET /lexeme/:word` -/

/-- The argument of `res.json`. -/
inductive Body where
  | error (message : String)
  | lexeme (lex : Lexeme)

structure Response where
  status : Nat
  body : Body

/-- The handler of `app.get('/lexeme/:word', ...)` on `req.params.word` (`none`: absent):
the calls made and the response sent. -/
def handler (env : Env) (param : Option String) : List Call × Response :=
  let word := param.getD ""
  if word = "" then ([], ⟨400, .error "Missing word"⟩)
  else
    let run := buildLexeme env (some word)
    match run.result with
    | .ok lex => (run.calls, ⟨200, .lexeme lex⟩)
    | .error err => (run.calls ++ [.consoleError err], ⟨500, .error "Server error"⟩)

/-! Concrete collaborators used by the examples -/

/-- An environment for the examples: the built-ins act as the JavaScript ones do on lowercase
ASCII letters and on `A`-`Z` (`toLowerCase` folds `A`-`Z`, `encodeURIComponent` leaves letters
unchanged); the lookup and the fetch are given. -/
def exampleEnv (lookup : Except JsError (Option (List Entry))) (fetch : String → FetchOutcome) :
    Env :=
  { toLowerCase := fun s => String.mk (s.data.map Char.toLower)
    encodeURIComponent := fun s => s
    lookup := fun _ => lookup
    fetch := fetch }

/-! Definitions used to state and prove the properties -/

/-- The value of a list of decimal digit characters, most significant first. -/
def decimalValue : List Char → Nat
  | [] => 0
  | c :: ds => (c.toNat - 48) * 10 ^ ds.length + decimalValue ds

/-- The labels of the rule table, in table order. -/
def ruleTableOrder : List String :=
  ["Physical", "Mental", "Finance", "Place", "Sound", "Value", "Action"]

/-- The categorisation in the words of the specification: the labels, in rule-table order and
each once, of the rules whose pattern matches the gloss. -/
def matchingLabels (gloss : String) : List String :=
  ruleTableOrder.filter (fun label => CATEGORY_RULES.any (fun r => r.cat == label && r.test gloss))

/-- The `word` value of an element of the payload, an absent one read as the empty string. -/
def wordField : Json → String
  | .obj members =>
    match members.lookup "word" with
    | some (.str s) => s
    | _ => ""
  | _ => ""

/-- The indices and normalized glosses of the entries for which the loop pushes a sense, from
index `i` on with the current `seen` set. -/
def keptFrom : Nat → List Entry → List String → List (Nat × String)
  | _, [], _ => []
  | i, s :: rest, seen =>
    if normalizeGloss s = "" ∨ normalizeGloss s ∈ seen then keptFrom (i + 1) rest seen
    else (i, normalizeGloss s) :: keptFrom (i + 1) rest (setAdd seen (normalizeGloss s))

/-- The rule at index `n` of the rule table. -/
def ruleAt (n : Nat) : Rule := CATEGORY_RULES.getD n ⟨"", []⟩

/-- The gloss contains `w` as a whole word, in any letter case: `/\bw\b/i` matches. -/
def containsWholeWord (w : String) (gloss : String) : Bool :=
  (List.range (gloss.length + 1)).any (fun e =>
    wordBoundary gloss.data e && literalAt w.data gloss.data e &&
      wordBoundary gloss.data (e + w.length))

/-- The entry at index `j` of a sequence of normalized glosses is retained, given the glosses
`seen` before the sequence starts: its gloss is not empty, is not in `seen` and is not the
gloss of an earlier entry. -/
def keepsAt (seen gs : List String) (j : Nat) : Bool :=
  decide (gs.getD j "" ≠ "" ∧ gs.getD j "" ∉ seen ∧ gs.getD j "" ∉ gs.take j)

/-- The rule of the specification for one entry: it is discarded if and only if its normalized
gloss is empty or equals the normalized gloss of an earlier entry. -/
def retainedAt (gs : List String) (j : Nat) : Bool :=
  decide (gs.getD j "" ≠ "" ∧ gs.getD j "" ∉ gs.take j)

/-- The indices of the retained entries, in the original order. -/
def retainedIndices (gs : List String) : List Nat :=
  (List.range gs.length).filter (retainedAt gs)

/-- The resolved (non-fallback) senses of a record: those with a non-zero confidence. -/
def resolvedSenses (lex : Lexeme) : List Sense :=
  lex.senses.filter (fun s => decide (s.conf ≠ 0))

/-- The normal form of a gloss: not empty, no whitespace at either end, and every whitespace
character is a space with no whitespace character next to it. -/
def inNormalForm (cs : List Char) : Prop :=
  cs ≠ [] ∧
  (∀ c, cs.head? = some c → isWhiteSpace c = false) ∧
  (∀ c, cs.getLast? = some c → isWhiteSpace c = false) ∧
  (∀ c ∈ cs, isWhiteSpace c = true → c = ' ') ∧
  cs.Chain' (fun a b => ¬ (isWhiteSpace a = true ∧ isWhiteSpace b = true))

/-! Decimal rendering of indices -/

theorem digitChar_toNat (k : Nat) (hk : k < 10) : (Nat.digitChar k).toNat - 48 = k := by
  interval_cases k <;> rfl

theorem decimalValue_toDigitsCore (fuel : Nat) :
    ∀ (n : Nat) (ds : List Char), n < fuel →
      decimalValue (Nat.toDigitsCore 10 fuel n ds) = n * 10 ^ ds.length + decimalValue ds := by
  induction fuel with
  | zero => intro n ds h; omega
  | succ fuel ih =>
    intro n ds h
    unfold Nat.toDigitsCore
    simp only
    split
    · rename_i h0
      have hn : n < 10 := by omega
      simp [decimalValue, Nat.mod_eq_of_lt hn, digitChar_toNat n hn]
    · rename_i h0
      have hlt : n / 10 < fuel := by omega
      rw [ih (n / 10) _ hlt]
      simp only [decimalValue, List.length_cons, digitChar_toNat _ (Nat.mod_lt n (by norm_num))]
      have hn : n = 10 * (n / 10) + n % 10 := (Nat.div_add_mod n 10).symm
      generalize n / 10 = q at hn
      generalize n % 10 = r at hn
      subst hn
      ring

theorem decimalValue_repr (n : Nat) : decimalValue (toString n).data = n := by
  show decimalValue (Nat.repr n).data = n
  unfold Nat.repr Nat.toDigits
  simp [List.asString, decimalValue_toDigitsCore (n + 1) n [] (by omega), decimalValue]

theorem toString_nat_injective {m n : Nat} (h : toString m = toString n) : m = n := by
  have := congrArg (fun s => decimalValue s.data) h
  simpa [decimalValue_repr] using this

theorem senseId_injective {m n : Nat} (h : "s" ++ toString m = "s" ++ toString n) : m = n := by
  apply toString_nat_injective
  have := congrArg String.data h
  simp only [String.data_append, List.append_cancel_left_eq] at this
  exact String.ext this


/-! The sense loop as a list of kept entries -/

theorem mem_setAdd (s : List String) (x y : String) : y ∈ setAdd s x ↔ y ∈ s ∨ y = x := by
  unfold setAdd
  split
  · constructor
    · intro h; exact Or.inl h
    · rintro (h | h)
      · exact h
      · subst h; assumption
  · simp

theorem sensesLoop_eq (es : List Entry) : ∀ (i : Nat) (seen : List String) (senses : List Sense),
    sensesLoop i es seen senses
      = senses ++ (keptFrom i es seen).map (fun p => mkSense p.1 p.2) := by
  induction es with
  | nil => intro i seen senses; simp [sensesLoop, keptFrom]
  | cons s rest ih =>
    intro i seen senses
    simp only [sensesLoop, keptFrom]
    split
    · exact ih _ _ _
    · rw [ih]; simp

theorem emittedSenses_eq (lookup : List Entry) :
    emittedSenses lookup = (keptFrom 0 lookup []).map (fun p => mkSense p.1 p.2) := by
  simp [emittedSenses, sensesLoop_eq]

theorem keptFrom_mem (es : List Entry) : ∀ (i : Nat) (seen : List String) (p : Nat × String),
    p ∈ keptFrom i es seen →
      i ≤ p.1 ∧ p.2 ≠ "" ∧ p.2 ∉ seen ∧ (es[p.1 - i]?).map normalizeGloss = some p.2 := by
  induction es with
  | nil => intro i seen p h; simp [keptFrom] at h
  | cons s rest ih =>
    intro i seen p h
    simp only [keptFrom] at h
    split at h
    · obtain ⟨h1, h2, h3, h4⟩ := ih _ _ _ h
      refine ⟨by omega, h2, h3, ?_⟩
      have e : p.1 - i = (p.1 - (i + 1)) + 1 := by omega
      rw [e]; simpa using h4
    · rename_i hkeep
      rw [not_or] at hkeep
      rcases List.mem_cons.1 h with h | h
      · subst h; exact ⟨le_refl _, hkeep.1, hkeep.2, by simp⟩
      · obtain ⟨h1, h2, h3, h4⟩ := ih _ _ _ h
        refine ⟨by omega, h2, ?_, ?_⟩
        · intro hm; exact h3 ((mem_setAdd _ _ _).2 (Or.inl hm))
        · have e : p.1 - i = (p.1 - (i + 1)) + 1 := by omega
          rw [e]; simpa using h4

theorem keptFrom_pairwise (es : List Entry) : ∀ (i : Nat) (seen : List String),
    (keptFrom i es seen).Pairwise (fun p q => p.1 < q.1 ∧ p.2 ≠ q.2) := by
  induction es with
  | nil => intro i seen; simp [keptFrom]
  | cons s rest ih =>
    intro i seen
    simp only [keptFrom]
    split
    · exact ih _ _
    · refine List.pairwise_cons.2 ⟨?_, ih _ _⟩
      intro q hq
      obtain ⟨h1, _, h3, _⟩ := keptFrom_mem _ _ _ _ hq
      refine ⟨by simpa using h1, ?_⟩
      intro heq
      exact h3 ((mem_setAdd _ _ _).2 (Or.inr heq.symm))

theorem keptFrom_length_le (es : List Entry) : ∀ (i : Nat) (seen : List String),
    (keptFrom i es seen).length ≤ es.length := by
  induction es with
  | nil => intro i seen; simp [keptFrom]
  | cons s rest ih =>
    intro i seen
    simp only [keptFrom]
    split
    · have := ih (i + 1) seen
      simp only [List.length_cons]; omega
    · have := ih (i + 1) (setAdd seen (normalizeGloss s))
      simp only [List.length_cons]; omega

theorem keptFrom_index_ge (es : List Entry) : ∀ (i : Nat) (seen : List String) (k : Nat)
    (p : Nat × String), (keptFrom i es seen)[k]? = some p → i + k ≤ p.1 := by
  induction es with
  | nil => intro i seen k p h; simp [keptFrom] at h
  | cons s rest ih =>
    intro i seen k p h
    simp only [keptFrom] at h
    split at h
    · have := ih _ _ _ _ h; omega
    · cases k with
      | zero => simp at h; subst h; simp
      | succ k =>
        simp only [List.getElem?_cons_succ] at h
        have := ih _ _ _ _ h; omega

theorem keptFrom_index_full (es : List Entry) : ∀ (i : Nat) (seen : List String) (k : Nat)
    (p : Nat × String), (keptFrom i es seen).length = es.length →
      (keptFrom i es seen)[k]? = some p → p.1 = i + k := by
  induction es with
  | nil => intro i seen k p _ h; simp [keptFrom] at h
  | cons s rest ih =>
    intro i seen k p hlen h
    simp only [keptFrom] at h hlen
    split at h
    · rename_i hd
      rw [if_pos hd] at hlen
      have := keptFrom_length_le rest (i + 1) seen
      simp only [List.length_cons] at hlen; omega
    · rename_i hd
      rw [if_neg hd] at hlen
      cases k with
      | zero => simp at h; subst h; simp
      | succ k =>
        simp only [List.getElem?_cons_succ] at h
        simp only [List.length_cons, Nat.add_right_cancel_iff] at hlen
        have := ih _ _ _ _ hlen h; omega


/-! What `buildLexeme` returns -/

theorem resolveSenses_eq (w : String) (es : List Entry) :
    resolveSenses w es
      = if keptFrom 0 es [] = [] then [fallbackSense w]
        else (keptFrom 0 es []).map (fun p => mkSense p.1 p.2) := by
  simp only [resolveSenses, emittedSenses_eq, List.length_map, List.length_eq_zero]
  split <;> simp_all

theorem buildLexeme_ok (env : Env) (word : Option String) (lex : Lexeme)
    (h : (buildLexeme env word).result = .ok lex) :
    ∃ results synonyms antonyms,
      env.lookup (env.toLowerCase (word.getD "")) = .ok results ∧
      (datamuse env (env.toLowerCase (word.getD "")) "rel_syn").result = .ok synonyms ∧
      (datamuse env (env.toLowerCase (word.getD "")) "rel_ant").result = .ok antonyms ∧
      lex = { id := env.toLowerCase (word.getD ""), language := "en",
              senses := resolveSenses (env.toLowerCase (word.getD "")) (results.getD []),
              synonyms := synonyms, antonyms := antonyms } := by
  unfold buildLexeme at h
  simp only at h
  cases hl : env.lookup (env.toLowerCase (word.getD "")) with
  | error e => rw [hl] at h; simp at h
  | ok results =>
    rw [hl] at h
    simp only [promiseAll2] at h
    cases hs : (datamuse env (env.toLowerCase (word.getD "")) "rel_syn").result with
    | error e => rw [hs] at h; simp at h
    | ok syn =>
      cases ha : (datamuse env (env.toLowerCase (word.getD "")) "rel_ant").result with
      | error e => rw [hs, ha] at h; simp at h
      | ok ant =>
        rw [hs, ha] at h
        simp only [Except.ok.injEq] at h
        exact ⟨results, syn, ant, rfl, rfl, rfl, h.symm⟩

theorem resolveSenses_gloss_nodup (w : String) (es : List Entry) :
    ((resolveSenses w es).map Sense.gloss).Nodup := by
  rw [resolveSenses_eq]
  split
  · simp
  · rw [List.map_map, List.Nodup, List.pairwise_map]
    exact (keptFrom_pairwise es 0 []).imp (fun h => by simpa [mkSense] using h.2)

theorem resolveSenses_id_nodup (w : String) (es : List Entry) :
    ((resolveSenses w es).map Sense.id).Nodup := by
  rw [resolveSenses_eq]
  split
  · simp
  · rw [List.map_map, List.Nodup, List.pairwise_map]
    refine (keptFrom_pairwise es 0 []).imp ?_
    intro p q h heq
    have := senseId_injective (m := p.1) (n := q.1) (by simpa [mkSense] using heq)
    omega

theorem resolveSenses_index (w : String) (es : List Entry) (k : Nat) (s : Sense)
    (hs : (resolveSenses w es)[k]? = some s) :
    ∃ i, k ≤ i ∧ s.id = "s" ++ toString i ∧
      ((es[i]?).map normalizeGloss = some s.gloss ∨
        (emittedSenses es = [] ∧ i = 0 ∧ s = fallbackSense w)) ∧
      ((emittedSenses es).length = es.length → i = k) := by
  rw [resolveSenses_eq] at hs
  split at hs
  · rename_i hnil
    cases k with
    | zero =>
      simp only [List.getElem?_cons_zero, Option.some.injEq] at hs
      subst hs
      exact ⟨0, le_refl _, rfl, Or.inr ⟨by simp [emittedSenses_eq, hnil], rfl, rfl⟩, fun _ => rfl⟩
    | succ k => simp at hs
  · rw [List.getElem?_map] at hs
    cases hp : (keptFrom 0 es [])[k]? with
    | none => rw [hp] at hs; simp at hs
    | some p =>
      rw [hp] at hs
      simp only [Option.map_some', Option.some.injEq] at hs
      subst hs
      have hge := keptFrom_index_ge es 0 [] k p hp
      have hmem := keptFrom_mem es 0 [] p (List.getElem?_mem hp)
      refine ⟨p.1, by omega, rfl, Or.inl (by simpa [mkSense] using hmem.2.2.2), ?_⟩
      intro hlen
      have := keptFrom_index_full es 0 [] k p (by simpa [emittedSenses_eq] using hlen) hp
      omega

/-! Properties of the senses of a lexeme -/

/-- C1 (counterexample). For the lookup result `[{gloss: ''}, {gloss: 'a'}]` the first entry is
discarded and the only sense returned, at position 0, has id `s1`, not `s0`. -/
theorem sense_id_differs_from_position :
    ∃ lex s,
      (buildLexeme (exampleEnv (.ok (some [⟨some ""⟩, ⟨some "a"⟩]))
          (fun _ => .response false (.error (.thrown "no body")))) (some "x")).result = .ok lex ∧
      lex.senses[0]? = some s ∧ s.id = "s1" ∧ s.id ≠ "s" ++ toString 0 :=
  ⟨_, _, rfl, rfl, rfl, by decide⟩

/-- C1 (amended). The k-th sense returned by `buildLexeme` has id `s` followed by `i`, where `i`
is the zero-based index, in the raw lookup result, of the entry the sense was built from (0 for
the fallback sense); `i` is at least `k`, and `i = k` when no entry was discarded. -/
theorem sense_id_is_raw_index (env : Env) (word : Option String) (lex : Lexeme)
    (results : Option (List Entry)) (k : Nat) (s : Sense)
    (hlex : (buildLexeme env word).result = .ok lex)
    (hlookup : env.lookup (env.toLowerCase (word.getD "")) = .ok results)
    (hs : lex.senses[k]? = some s) :
    ∃ i, k ≤ i ∧ s.id = "s" ++ toString i ∧
      (((results.getD [])[i]?).map normalizeGloss = some s.gloss ∨
        (emittedSenses (results.getD []) = [] ∧ i = 0 ∧
          s = fallbackSense (env.toLowerCase (word.getD "")))) ∧
      ((emittedSenses (results.getD [])).length = (results.getD []).length → i = k) := by
  obtain ⟨results', syn, ant, h1, _, _, h4⟩ := buildLexeme_ok env word lex hlex
  rw [hlookup] at h1
  cases h1
  subst h4
  exact resolveSenses_index _ _ k s hs

/-- Witness of C1 (amended): the second sense for `[{gloss: ''}, {gloss: 'a'}, {gloss: 'b'}]`
is built from the entry at index 2. -/
theorem sense_id_is_raw_index_witness :
    ∃ i, 1 ≤ i ∧ (mkSense 2 "b").id = "s" ++ toString i ∧
      ((([⟨some ""⟩, ⟨some "a"⟩, ⟨some "b"⟩] : List Entry)[i]?).map normalizeGloss
          = some (mkSense 2 "b").gloss ∨
        (emittedSenses [⟨some ""⟩, ⟨some "a"⟩, ⟨some "b"⟩] = [] ∧ i = 0 ∧
          mkSense 2 "b" = fallbackSense "x")) ∧
      ((emittedSenses [⟨some ""⟩, ⟨some "a"⟩, ⟨some "b"⟩]).length = 3 → i = 1) :=
  sense_id_is_raw_index
    (exampleEnv (.ok (some [⟨some ""⟩, ⟨some "a"⟩, ⟨some "b"⟩]))
      (fun _ => .response false (.error (.thrown "no body"))))
    (some "x") _ (some [⟨some ""⟩, ⟨some "a"⟩, ⟨some "b"⟩]) 1 (mkSense 2 "b") rfl rfl rfl

/-- C3. No two senses returned by `buildLexeme` have the same gloss. -/
theorem senses_gloss_nodup (env : Env) (word : Option String) (lex : Lexeme)
    (hlex : (buildLexeme env word).result = .ok lex) :
    (lex.senses.map Sense.gloss).Nodup := by
  obtain ⟨results, syn, ant, _, _, _, h4⟩ := buildLexeme_ok env word lex hlex
  subst h4
  exact resolveSenses_gloss_nodup _ _

/-- Witness of C3: a lookup result with a repeated gloss (after normalisation). -/
theorem senses_gloss_nodup_witness :
    ((resolveSenses "bank" [⟨some "a  bank"⟩, ⟨some " a bank "⟩, ⟨some "shore"⟩]).map
      Sense.gloss).Nodup :=
  senses_gloss_nodup
    (exampleEnv (.ok (some [⟨some "a  bank"⟩, ⟨some " a bank "⟩, ⟨some "shore"⟩]))
      (fun _ => .response false (.error (.thrown "no body"))))
    (some "Bank")
    { id := "bank", language := "en",
      senses := resolveSenses "bank" [⟨some "a  bank"⟩, ⟨some " a bank "⟩, ⟨some "shore"⟩],
      synonyms := [], antonyms := [] } rfl

/-- C10. The ids of the senses returned by `buildLexeme` are pairwise distinct. -/
theorem senses_id_nodup (env : Env) (word : Option String) (lex : Lexeme)
    (hlex : (buildLexeme env word).result = .ok lex) :
    (lex.senses.map Sense.id).Nodup := by
  obtain ⟨results, syn, ant, _, _, _, h4⟩ := buildLexeme_ok env word lex hlex
  subst h4
  exact resolveSenses_id_nodup _ _

/-- Witness of C10: three entries, one of them discarded. -/
theorem senses_id_nodup_witness :
    ((resolveSenses "bank" [⟨some "a bank"⟩, ⟨none⟩, ⟨some "shore"⟩]).map Sense.id).Nodup :=
  senses_id_nodup
    (exampleEnv (.ok (some [⟨some "a bank"⟩, ⟨none⟩, ⟨some "shore"⟩]))
      (fun _ => .response false (.error (.thrown "no body"))))
    (some "bank")
    { id := "bank", language := "en",
      senses := resolveSenses "bank" [⟨some "a bank"⟩, ⟨none⟩, ⟨some "shore"⟩],
      synonyms := [], antonyms := [] } rfl

/-- C4 (counterexample). For the word `A` and an empty lookup result the fallback gloss is
built from the lowercased word `a`; it does not contain the queried word `A`. -/
theorem fallback_gloss_lacks_queried_word :
    ∃ lex s,
      (buildLexeme (exampleEnv (.ok (some []))
          (fun _ => .response false (.error (.thrown "no body")))) (some "A")).result = .ok lex ∧
      lex.senses = [s] ∧ s.gloss = "No definition found for “a”" ∧
      ¬ ("A".data <:+: s.gloss.data) :=
  ⟨_, _, rfl, rfl, rfl, by decide⟩

/-- C4 (amended). The senses returned by `buildLexeme` are never empty; when the loop emits no
sense (in particular when the lookup yields no entry) there is exactly one sense, with id `s0`,
conf 0, no categories and the gloss `No definition found for “w”`, where `w` is the queried word
lowercased (the id of the record), which the gloss therefore contains. -/
theorem senses_nonempty_fallback (env : Env) (word : Option String) (lex : Lexeme)
    (results : Option (List Entry))
    (hlex : (buildLexeme env word).result = .ok lex)
    (hlookup : env.lookup (env.toLowerCase (word.getD "")) = .ok results) :
    lex.senses ≠ [] ∧ lex.id = env.toLowerCase (word.getD "") ∧
      (emittedSenses (results.getD []) = [] →
        ∃ s, lex.senses = [s] ∧ s.id = "s0" ∧ s.conf = 0 ∧ s.categories = [] ∧
          s.gloss = "No definition found for “" ++ lex.id ++ "”" ∧
          lex.id.data <:+: s.gloss.data) := by
  obtain ⟨results', syn, ant, h1, _, _, h4⟩ := buildLexeme_ok env word lex hlex
  rw [hlookup] at h1
  cases h1
  subst h4
  refine ⟨?_, rfl, ?_⟩
  · simp only [resolveSenses]
    split
    · simp
    · rename_i h; intro h0; exact h (by simp [h0])
  · intro hnil
    refine ⟨fallbackSense (env.toLowerCase (word.getD "")), ?_, rfl, rfl, rfl, rfl, ?_⟩
    · simp [resolveSenses, hnil]
    · simp only [fallbackSense, String.data_append]
      exact ⟨_, _, rfl⟩

/-- Witness of C4 (amended): the word `Xyzzy` with an empty lookup result. -/
theorem senses_nonempty_fallback_witness :
    resolveSenses "xyzzy" [] ≠ [] ∧ "xyzzy" = "xyzzy" ∧
      (emittedSenses [] = [] →
        ∃ s, resolveSenses "xyzzy" [] = [s] ∧ s.id = "s0" ∧ s.conf = 0 ∧ s.categories = [] ∧
          s.gloss = "No definition found for “" ++ "xyzzy" ++ "”" ∧
          "xyzzy".data <:+: s.gloss.data) :=
  senses_nonempty_fallback
    (exampleEnv (.ok (some [])) (fun _ => .response false (.error (.thrown "no body"))))
    (some "Xyzzy")
    { id := "xyzzy", language := "en", senses := resolveSenses "xyzzy" [], synonyms := [],
      antonyms := [] }
    (some []) rfl rfl

/-! Categorisation -/

theorem foldl_setAdd_of_nodup (xs : List String) : ∀ (acc : List String),
    (acc ++ xs).Nodup → xs.foldl setAdd acc = acc ++ xs := by
  induction xs with
  | nil => intro acc _; simp
  | cons x t ih =>
    intro acc h
    have hx : x ∉ acc := by
      intro hm
      have := List.nodup_append.1 h
      exact this.2.2 hm (List.mem_cons_self _ _)
    have hadd : setAdd acc x = acc ++ [x] := by simp [setAdd, hx]
    rw [List.foldl_cons, hadd, ih (acc ++ [x]) (by simpa using h)]
    simp

theorem newSet_of_nodup (xs : List String) (h : xs.Nodup) : newSet xs = xs := by
  simpa [newSet] using foldl_setAdd_of_nodup xs [] (by simpa using h)

theorem ruleLabels_nodup : (CATEGORY_RULES.map (fun r => r.cat)).Nodup := by decide

theorem hits_nodup (p : Rule → Bool) : ((CATEGORY_RULES.filter p).map (fun r => r.cat)).Nodup :=
  ruleLabels_nodup.sublist ((List.filter_sublist _).map _)

theorem matchingLabels_eq (gloss : String) :
    matchingLabels gloss
      = (CATEGORY_RULES.filter (fun r => r.test gloss)).map (fun r => r.cat) := by
  have hmap : ruleTableOrder = CATEGORY_RULES.map (fun r => r.cat) := rfl
  unfold matchingLabels
  rw [hmap, List.filter_map]
  congr 1
  apply List.filter_congr
  intro r hr
  have hinj := List.inj_on_of_nodup_map ruleLabels_nodup
  cases ht : r.test gloss with
  | true =>
    simp only [Function.comp, List.any_eq_true]
    exact ⟨r, hr, by simp [ht]⟩
  | false =>
    simp only [Function.comp]
    rw [Bool.eq_false_iff]
    intro hany
    obtain ⟨r', hr', h'⟩ := List.any_eq_true.1 hany
    simp only [Bool.and_eq_true, beq_iff_eq] at h'
    have : r' = r := hinj hr' hr h'.1
    rw [this, ht] at h'
    exact absurd h'.2 (by simp)

/-- C2. The result of `categorizeSense` is the list of the labels of the matching rules, in
rule-table order and without duplicates, cut to its first 3 elements; its length is the smaller
of 3 and the number of matching rules (so 3 when 5 rules match). -/
theorem categorizeSense_eq_matchingLabels (gloss : String) :
    categorizeSense gloss = (matchingLabels gloss).take 3 ∧
      (matchingLabels gloss).Nodup ∧
      (matchingLabels gloss).Sublist ruleTableOrder ∧
      (matchingLabels gloss).length = (CATEGORY_RULES.filter (fun r => r.test gloss)).length ∧
      (categorizeSense gloss).length
        = min 3 (CATEGORY_RULES.filter (fun r => r.test gloss)).length := by
  have hm := matchingLabels_eq gloss
  have hc : categorizeSense gloss = (matchingLabels gloss).take 3 := by
    rw [hm]
    simp only [categorizeSense]
    rw [newSet_of_nodup _ (hits_nodup _)]
  refine ⟨hc, ?_, ?_, ?_, ?_⟩
  · rw [hm]; exact hits_nodup _
  · exact List.filter_sublist _
  · rw [hm, List.length_map]
  · rw [hc, hm, List.length_take, List.length_map]

/-! The relation fetcher -/

theorem arrayMap_ok {α β : Type} (f : α → Except JsError β) (g : α → β) (xs : List α)
    (h : ∀ x ∈ xs, f x = .ok (g x)) : arrayMap f xs = .ok (xs.map g) := by
  induction xs with
  | nil => rfl
  | cons a rest ih =>
    have ha := h a (List.mem_cons_self _ _)
    have hr := ih (fun x hx => h x (List.mem_cons_of_mem _ hx))
    simp [arrayMap, ha, hr]

/-- C5 (code defect). A rejected fetch, a body that does not decode, a payload that is not
an array, a `null` element and a non-string `word` each make `datamuse` reject instead of
returning the empty list, whereas a failed status, on the same request, is degraded to the empty
list by the guard `if (!r.ok) return []`. -/
theorem datamuse_raises_on_failure :
    (datamuse (exampleEnv (.ok none) (fun _ => .rejected (.thrown "ECONNREFUSED"))) "bank"
        "rel_syn").result = .error (.thrown "ECONNREFUSED") ∧
    (datamuse (exampleEnv (.ok none)
        (fun _ => .response true (.error (.thrown "Unexpected token <")))) "bank"
        "rel_syn").result = .error (.thrown "Unexpected token <") ∧
    (datamuse (exampleEnv (.ok none) (fun _ => .response true (.ok (.obj [])))) "bank"
        "rel_syn").result = .error (.typeError "j.map is not a function") ∧
    (datamuse (exampleEnv (.ok none) (fun _ => .response true (.ok (.arr [.null])))) "bank"
        "rel_syn").result
      = .error (.typeError "Cannot read properties of null (reading 'word')") ∧
    (datamuse (exampleEnv (.ok none)
        (fun _ => .response true (.ok (.arr [.obj [("word", .bool true)]])))) "bank"
        "rel_syn").result
      = .error (.typeError "(d.word || \"\").toLowerCase is not a function") ∧
    (datamuse (exampleEnv (.ok none)
        (fun _ => .response false (.error (.thrown "Unexpected token <")))) "bank"
        "rel_syn").result = .ok [] :=
  ⟨rfl, rfl, rfl, rfl, rfl, rfl⟩

/-- C7. On an OK response whose body decodes to an array of objects, each with an absent or
string `word`, `datamuse` returns the lowercased `word` values in source order (an absent one
read as the empty string), those that are empty after lowercasing removed; so every entry
returned is a lowercased value and is not empty. -/
theorem datamuse_words (env : Env) (word rel : String) (elems : List Json)
    (hfetch : env.fetch (datamuseUrl env word rel) = .response true (.ok (.arr elems)))
    (helems : ∀ d ∈ elems, ∃ members, d = .obj members ∧
      (members.lookup "word" = none ∨ ∃ s, members.lookup "word" = some (.str s))) :
    (datamuse env word rel).result
        = .ok ((elems.map (fun d => env.toLowerCase (wordField d))).filter (fun s => s ≠ "")) ∧
      ∀ x ∈ (datamuse env word rel).result.toOption.getD [],
        x ≠ "" ∧ ∃ d ∈ elems, x = env.toLowerCase (wordField d) := by
  have hmap : arrayMap (wordOf env) elems
      = .ok (elems.map (fun d => env.toLowerCase (wordField d))) := by
    apply arrayMap_ok
    intro d hd
    obtain ⟨members, rfl, hw⟩ := helems d hd
    rcases hw with hw | ⟨w, hw⟩
    · simp [wordOf, readWord, wordField, hw, truthy]
    · by_cases hempty : w = ""
      · simp [wordOf, readWord, wordField, hw, truthy, hempty]
      · simp [wordOf, readWord, wordField, hw, truthy, hempty]
  have hres : (datamuse env word rel).result
      = .ok ((elems.map (fun d => env.toLowerCase (wordField d))).filter (fun s => s ≠ "")) := by
    simp [datamuse, hfetch, mapWords, hmap]
  refine ⟨hres, ?_⟩
  intro x hx
  rw [hres] at hx
  simp only [Except.toOption, Option.getD_some] at hx
  have hx' : x ∈ (elems.map (fun d => env.toLowerCase (wordField d))).filter (fun s => s ≠ "") :=
    hx
  rw [List.mem_filter, List.mem_map] at hx'
  obtain ⟨⟨d, hd, rfl⟩, hne⟩ := hx'
  exact ⟨by simpa using hne, d, hd, rfl⟩

/-- Witness of C7: the payload `[{word: 'Trust'}, {}, {word: ''}, {word: 'depository'}]`. -/
theorem datamuse_words_witness :
    (datamuse
        (exampleEnv (.ok none) (fun _ => .response true (.ok (.arr
          [.obj [("word", .str "Trust"), ("score", .num 2)], .obj [], .obj [("word", .str "")],
            .obj [("word", .str "depository")]]))))
        "bank" "rel_syn").result = .ok ["trust", "depository"] :=
  (datamuse_words
    (exampleEnv (.ok none) (fun _ => .response true (.ok (.arr
      [.obj [("word", .str "Trust"), ("score", .num 2)], .obj [], .obj [("word", .str "")],
        .obj [("word", .str "depository")]]))))
    "bank" "rel_syn" _ rfl
    (by
      intro d hd
      simp only [List.mem_cons, List.mem_singleton, List.not_mem_nil, or_false] at hd
      rcases hd with rfl | rfl | rfl | rfl
      · exact ⟨_, rfl, Or.inr ⟨"Trust", rfl⟩⟩
      · exact ⟨_, rfl, Or.inl rfl⟩
      · exact ⟨_, rfl, Or.inr ⟨"", rfl⟩⟩
      · exact ⟨_, rfl, Or.inr ⟨"depository", rfl⟩⟩)).1

/-! The route handler -/

theorem buildLexeme_result (env : Env) (word : Option String) :
    (buildLexeme env word).result =
      match env.lookup (env.toLowerCase (word.getD "")) with
      | .error e => .error e
      | .ok results =>
        match (datamuse env (env.toLowerCase (word.getD "")) "rel_syn").result,
          (datamuse env (env.toLowerCase (word.getD "")) "rel_ant").result with
        | .ok synonyms, .ok antonyms =>
          .ok { id := env.toLowerCase (word.getD ""), language := "en",
                senses := resolveSenses (env.toLowerCase (word.getD "")) (results.getD []),
                synonyms := synonyms, antonyms := antonyms }
        | .error e, _ => .error e
        | .ok _, .error e => .error e := by
  unfold buildLexeme
  simp only
  cases env.lookup (env.toLowerCase (word.getD "")) with
  | error e => rfl
  | ok results =>
    simp only [promiseAll2]
    cases (datamuse env (env.toLowerCase (word.getD "")) "rel_syn").result with
    | error e => rfl
    | ok syn =>
      cases (datamuse env (env.toLowerCase (word.getD "")) "rel_ant").result with
      | error e => rfl
      | ok ant => rfl

theorem handler_response (env : Env) (w : String) (hw : w ≠ "") :
    (handler env (some w)).2 =
      match (buildLexeme env (some w)).result with
      | .ok lex => ⟨200, .lexeme lex⟩
      | .error _ => ⟨500, .error "Server error"⟩ := by
  simp only [handler, Option.getD_some, hw, if_false]
  cases (buildLexeme env (some w)).result <;> rfl

/-- C6 (code defect). With a dictionary entry for `bank` and both fetches rejected (the
relation service is unreachable) the handler responds 500 with `{"error": "Server error"}`;
with the same entry and a failed status on both requests it responds 200 with the populated
senses and empty synonyms and antonyms. -/
theorem unreachable_service_gives_500 :
    (handler (exampleEnv (.ok (some [⟨some "sloping land beside a river"⟩]))
        (fun _ => .rejected (.thrown "ECONNREFUSED"))) (some "bank")).2
      = ⟨500, .error "Server error"⟩ ∧
    (handler (exampleEnv (.ok (some [⟨some "sloping land beside a river"⟩]))
        (fun _ => .response false (.error (.thrown "no body")))) (some "bank")).2
      = ⟨200, .lexeme { id := "bank", language := "en",
                        senses := [mkSense 0 "sloping land beside a river"],
                        synonyms := [], antonyms := [] }⟩ :=
  ⟨rfl, rfl⟩

/-- C8 (counterexample). Called with an absent word, or with the empty string, `buildLexeme`
runs the lookup and the two relation requests and returns a record with the empty id; it does
not fail. -/
theorem buildLexeme_accepts_empty_word :
    buildLexeme (exampleEnv (.ok (some []))
        (fun _ => .response false (.error (.thrown "no body")))) none
      = ⟨[.lookup "", .fetch "https://api.datamuse.com/words?rel_syn=",
            .fetch "https://api.datamuse.com/words?rel_ant="],
          .ok { id := "", language := "en", senses := [fallbackSense ""], synonyms := [],
                antonyms := [] }⟩ ∧
    (buildLexeme (exampleEnv (.ok (some []))
        (fun _ => .response false (.error (.thrown "no body")))) (some "")).result
      = .ok { id := "", language := "en", senses := [fallbackSense ""], synonyms := [],
              antonyms := [] } :=
  ⟨rfl, rfl⟩

/-- C8 (amended). The function `buildLexeme` makes no validation of the word. When the
normalised word is empty it calls the lookup with the empty string first and, if the lookup and
the two relation requests succeed, returns a record with the empty id and the senses resolved
for the empty word; an error it rejects with is one raised by the lookup or by a relation
request. -/
theorem buildLexeme_empty_word (env : Env) (word : Option String)
    (hempty : env.toLowerCase (word.getD "") = "") :
    (buildLexeme env word).calls.head? = some (.lookup "") ∧
    (∀ results synonyms antonyms, env.lookup "" = .ok results →
      (datamuse env "" "rel_syn").result = .ok synonyms →
      (datamuse env "" "rel_ant").result = .ok antonyms →
      (buildLexeme env word).result
        = .ok { id := "", language := "en", senses := resolveSenses "" (results.getD []),
                synonyms := synonyms, antonyms := antonyms }) ∧
    (∀ e, (buildLexeme env word).result = .error e →
      env.lookup "" = .error e ∨ (datamuse env "" "rel_syn").result = .error e ∨
        (datamuse env "" "rel_ant").result = .error e) := by
  have hb := buildLexeme_result env word
  rw [hempty] at hb
  refine ⟨?_, ?_, ?_⟩
  · unfold buildLexeme
    simp only [hempty]
    cases env.lookup "" <;> rfl
  · intro results syn ant hl hs ha
    rw [hb, hl, hs, ha]
  · intro e he
    rw [hb] at he
    cases hl : env.lookup "" with
    | error e' => rw [hl] at he; simp at he; exact Or.inl (by rw [he])
    | ok results =>
      rw [hl] at he
      cases hs : (datamuse env "" "rel_syn").result with
      | error e' => rw [hs] at he; simp at he; exact Or.inr (Or.inl (by rw [he]))
      | ok syn =>
        cases ha : (datamuse env "" "rel_ant").result with
        | error e' => rw [hs, ha] at he; simp at he; exact Or.inr (Or.inr (by rw [he]))
        | ok ant => rw [hs, ha] at he; simp at he

/-- Witness of C8 (amended): an absent word, an empty lookup result and a relation service
that answers 503. -/
theorem buildLexeme_empty_word_witness :
    (buildLexeme (exampleEnv (.ok (some []))
        (fun _ => .response false (.error (.thrown "no body")))) none).result
      = .ok { id := "", language := "en", senses := resolveSenses "" [], synonyms := [],
              antonyms := [] } :=
  (buildLexeme_empty_word (exampleEnv (.ok (some []))
      (fun _ => .response false (.error (.thrown "no body")))) none rfl).2.1
    (some []) [] [] rfl rfl rfl

/-- C9. When the word parameter is absent or empty the handler responds 400 with
`{"error": "Missing word"}` and makes no call at all (a call of `buildLexeme` always starts
with the lookup); for a non-empty parameter the status is never 400. -/
theorem handler_missing_word (env : Env) (param : Option String) :
    (param.getD "" = "" → handler env param = ([], ⟨400, .error "Missing word"⟩)) ∧
    (param.getD "" ≠ "" → (handler env param).2.status ≠ 400) ∧
    (∀ word, (buildLexeme env word).calls.head?
      = some (.lookup (env.toLowerCase (word.getD "")))) := by
  refine ⟨?_, ?_, ?_⟩
  · intro h
    simp [handler, h]
  · intro h
    simp only [handler, h, if_false]
    cases (buildLexeme env (some (param.getD ""))).result <;> simp
  · intro word
    unfold buildLexeme
    simp only
    cases env.lookup (env.toLowerCase (word.getD "")) <;> rfl

/-- Witness of C9: an absent parameter, the empty parameter, and the parameter `bank`. -/
theorem handler_missing_word_witness :
    handler (exampleEnv (.ok (some [⟨some "a river bank"⟩]))
        (fun _ => .rejected (.thrown "ECONNREFUSED"))) none
      = ([], ⟨400, .error "Missing word"⟩) ∧
    handler (exampleEnv (.ok (some [⟨some "a river bank"⟩]))
        (fun _ => .rejected (.thrown "ECONNREFUSED"))) (some "")
      = ([], ⟨400, .error "Missing word"⟩) ∧
    (handler (exampleEnv (.ok (some [⟨some "a river bank"⟩]))
        (fun _ => .rejected (.thrown "ECONNREFUSED"))) (some "bank")).2.status ≠ 400 :=
  ⟨(handler_missing_word _ none).1 rfl, (handler_missing_word _ (some "")).1 rfl,
    (handler_missing_word _ (some "bank")).2.1 (by decide)⟩

/-! Further properties of the relation fetcher, the handler and the record -/

/-- C11. When the response status is not OK, `datamuse` makes the fetch call only (the body
is not decoded) and returns the empty list; it does not reject. -/
theorem datamuse_not_ok_run (env : Env) (word rel : String) (body : Except JsError Json)
    (hfetch : env.fetch (datamuseUrl env word rel) = .response false body) :
    datamuse env word rel = ⟨[.fetch (datamuseUrl env word rel)], .ok []⟩ ∧
      Call.json (datamuseUrl env word rel) ∉ (datamuse env word rel).calls := by
  have h : datamuse env word rel = ⟨[.fetch (datamuseUrl env word rel)], .ok []⟩ := by
    simp [datamuse, hfetch]
  refine ⟨h, ?_⟩
  rw [h]
  simp

/-- Witness of C11: a 404 response whose body would decode to a list of words. -/
theorem datamuse_not_ok_run_witness :
    datamuse (exampleEnv (.ok none)
        (fun _ => .response false (.ok (.arr [.obj [("word", .str "trust")]]))))
        "bank" "rel_syn"
      = ⟨[.fetch "https://api.datamuse.com/words?rel_syn=bank"], .ok []⟩ :=
  (datamuse_not_ok_run
    (exampleEnv (.ok none) (fun _ => .response false (.ok (.arr [.obj [("word", .str "trust")]]))))
    "bank" "rel_syn" _ rfl).1

/-- C12. For a non-empty word parameter the handler responds 200 with exactly the record
returned by `buildLexeme` when it succeeds, and 500 with the body `{"error": "Server error"}`,
the same for every error, when it fails. -/
theorem handler_success_or_500 (env : Env) (w : String) (hw : w ≠ "") :
    (∀ lex, (buildLexeme env (some w)).result = .ok lex →
      (handler env (some w)).2 = ⟨200, .lexeme lex⟩) ∧
    (∀ e, (buildLexeme env (some w)).result = .error e →
      (handler env (some w)).2 = ⟨500, .error "Server error"⟩) := by
  have h := handler_response env w hw
  constructor
  · intro lex hl
    rw [h, hl]
  · intro e he
    rw [h, he]

/-- Witness of C12: the word `bank` with a relation service that answers, and with a lookup
that throws. -/
theorem handler_success_or_500_witness :
    (handler (exampleEnv (.ok (some [⟨some "a financial institution"⟩]))
        (fun _ => .response true (.ok (.arr [.obj [("word", .str "Trust")]])))) (some "bank")).2
      = ⟨200, .lexeme { id := "bank", language := "en",
                        senses := [mkSense 0 "a financial institution"],
                        synonyms := ["trust"], antonyms := ["trust"] }⟩ ∧
    (handler (exampleEnv (.error (.thrown "database not found"))
        (fun _ => .response true (.ok (.arr [])))) (some "bank")).2
      = ⟨500, .error "Server error"⟩ :=
  ⟨(handler_success_or_500
      (exampleEnv (.ok (some [⟨some "a financial institution"⟩]))
        (fun _ => .response true (.ok (.arr [.obj [("word", .str "Trust")]]))))
      "bank" (by decide)).1 _ rfl,
   (handler_success_or_500
      (exampleEnv (.error (.thrown "database not found"))
        (fun _ => .response true (.ok (.arr []))))
      "bank" (by decide)).2 (.thrown "database not found") rfl⟩

/-- C13. A gloss that matches none of the seven rule patterns has no category. -/
theorem categorizeSense_no_match (gloss : String)
    (hnone : ∀ r ∈ CATEGORY_RULES, r.test gloss = false) :
    categorizeSense gloss = [] := by
  have hf : CATEGORY_RULES.filter (fun r => r.test gloss) = [] := by
    rw [List.filter_eq_nil_iff]
    intro r hr
    simp [hnone r hr]
  simp [categorizeSense, hf, newSet]

/-- Witness of C13: `embankment` holds `bank`, but not as a whole word. -/
theorem categorizeSense_no_match_witness :
    categorizeSense "An embankment of earth; banks and rivers" = [] :=
  categorizeSense_no_match "An embankment of earth; banks and rivers" (by decide)

theorem datamuse_calls_fetch (env : Env) (word rel : String) :
    Call.fetch (datamuseUrl env word rel) ∈ (datamuse env word rel).calls := by
  unfold datamuse
  simp only
  cases env.fetch (datamuseUrl env word rel) with
  | rejected e => simp
  | response ok body =>
    cases ok with
    | false => simp
    | true => cases body <;> simp

theorem buildLexeme_calls (env : Env) (word : Option String)
    (results : Option (List Entry))
    (hlookup : env.lookup (env.toLowerCase (word.getD "")) = .ok results) :
    (buildLexeme env word).calls
      = .lookup (env.toLowerCase (word.getD "")) ::
          ((datamuse env (env.toLowerCase (word.getD "")) "rel_syn").calls ++
            (datamuse env (env.toLowerCase (word.getD "")) "rel_ant").calls) := by
  simp [buildLexeme, hlookup, promiseAll2]

/-- C14. A record returned by `buildLexeme` has the normalised word as id, language `en`, the
senses resolved for the normalised word from the lookup result, the result of the `rel_syn`
request as synonyms and the result of the `rel_ant` request as antonyms; the lookup and both
requests were made for the normalised word. -/
theorem buildLexeme_record (env : Env) (word : Option String) (lex : Lexeme)
    (hlex : (buildLexeme env word).result = .ok lex) :
    lex.id = env.toLowerCase (word.getD "") ∧ lex.language = "en" ∧
    (∃ results, env.lookup lex.id = .ok results ∧
      lex.senses = resolveSenses lex.id (results.getD [])) ∧
    (datamuse env lex.id "rel_syn").result = .ok lex.synonyms ∧
    (datamuse env lex.id "rel_ant").result = .ok lex.antonyms ∧
    (buildLexeme env word).calls
      = .lookup lex.id :: ((datamuse env lex.id "rel_syn").calls ++
          (datamuse env lex.id "rel_ant").calls) ∧
    Call.fetch (datamuseUrl env lex.id "rel_syn") ∈ (buildLexeme env word).calls ∧
    Call.fetch (datamuseUrl env lex.id "rel_ant") ∈ (buildLexeme env word).calls := by
  obtain ⟨results, syn, ant, h1, h2, h3, h4⟩ := buildLexeme_ok env word lex hlex
  subst h4
  have hc := buildLexeme_calls env word results h1
  refine ⟨rfl, rfl, ⟨results, h1, rfl⟩, h2, h3, hc, ?_, ?_⟩
  · rw [hc]
    exact List.mem_cons_of_mem _ (List.mem_append_left _ (datamuse_calls_fetch _ _ _))
  · rw [hc]
    exact List.mem_cons_of_mem _ (List.mem_append_right _ (datamuse_calls_fetch _ _ _))

/-- Witness of C14: the word `Bank`, with different answers to the two relation requests. -/
theorem buildLexeme_record_witness :
    (buildLexeme
        (exampleEnv (.ok (some [⟨some "a financial institution"⟩]))
          (fun url =>
            if url = "https://api.datamuse.com/words?rel_syn=bank" then
              .response true (.ok (.arr [.obj [("word", .str "Depository")]]))
            else if url = "https://api.datamuse.com/words?rel_ant=bank" then
              .response true (.ok (.arr [.obj [("word", .str "Withdraw")]]))
            else .rejected (.thrown "unexpected request")))
        (some "Bank")).result
      = .ok { id := "bank", language := "en", senses := [mkSense 0 "a financial institution"],
              synonyms := ["depository"], antonyms := ["withdraw"] } ∧
    "bank" = String.mk ("Bank".data.map Char.toLower) :=
  ⟨rfl,
    (buildLexeme_record
      (exampleEnv (.ok (some [⟨some "a financial institution"⟩]))
        (fun url =>
          if url = "https://api.datamuse.com/words?rel_syn=bank" then
            .response true (.ok (.arr [.obj [("word", .str "Depository")]]))
          else if url = "https://api.datamuse.com/words?rel_ant=bank" then
            .response true (.ok (.arr [.obj [("word", .str "Withdraw")]]))
          else .rejected (.thrown "unexpected request")))
      (some "Bank")
      { id := "bank", language := "en", senses := [mkSense 0 "a financial institution"],
        synonyms := ["depository"], antonyms := ["withdraw"] } rfl).1⟩

/-! The cap of three categories -/

theorem mem_take_filter (p : Rule → Bool) : ∀ (l : List Rule) (k n : Nat) (r : Rule),
    (l.map (fun r => r.cat)).Nodup → l[n]? = some r →
      (r.cat ∈ ((l.filter p).map (fun r => r.cat)).take k ↔
        p r = true ∧ ((l.take n).filter p).length < k) := by
  intro l
  induction l with
  | nil => intro k n r _ h; simp at h
  | cons a t ih =>
    intro k n r hnd hr
    have hnd' := List.nodup_cons.1 hnd
    have hnot : ∀ (m : Nat) (x : Rule), t[m]? = some x → x.cat ≠ a.cat := by
      intro m x hx heq
      apply hnd'.1
      show a.cat ∈ List.map (fun r => r.cat) t
      rw [← heq]
      exact List.mem_map_of_mem (fun r => r.cat) (List.getElem?_mem hx)
    cases hpa : p a with
    | true =>
      rw [List.filter_cons_of_pos hpa]
      cases k with
      | zero => simp
      | succ k =>
        cases n with
        | zero =>
          simp only [List.getElem?_cons_zero, Option.some.injEq] at hr
          subst hr
          simp [hpa]
        | succ m =>
          simp only [List.getElem?_cons_succ] at hr
          simp only [List.map_cons, List.take_succ_cons, List.mem_cons, hnot m r hr, false_or,
            List.filter_cons_of_pos hpa, List.length_cons, Nat.add_lt_add_iff_right]
          exact ih k m r hnd'.2 hr
    | false =>
      have hpa' : ¬ p a = true := by simp [hpa]
      rw [List.filter_cons_of_neg hpa']
      cases n with
      | zero =>
        simp only [List.getElem?_cons_zero, Option.some.injEq] at hr
        subst hr
        simp only [hpa, false_and, iff_false, Bool.false_eq_true]
        intro hm
        apply hnd'.1
        have h1 := List.mem_of_mem_take hm
        exact ((List.filter_sublist t).map (fun r => r.cat)).subset h1
      | succ m =>
        simp only [List.getElem?_cons_succ] at hr
        simp only [List.take_succ_cons, List.filter_cons_of_neg hpa']
        exact ih k m r hnd'.2 hr

theorem categorizeSense_eq_take (gloss : String) :
    categorizeSense gloss
      = ((CATEGORY_RULES.filter (fun r => r.test gloss)).map (fun r => r.cat)).take 3 := by
  simp only [categorizeSense]
  rw [newSet_of_nodup _ (hits_nodup _)]

theorem mem_categorizeSense_iff (gloss : String) (n : Nat) (r : Rule)
    (hr : CATEGORY_RULES[n]? = some r) :
    r.cat ∈ categorizeSense gloss ↔
      r.test gloss = true ∧
        ((CATEGORY_RULES.take n).filter (fun r => r.test gloss)).length < 3 := by
  rw [categorizeSense_eq_take]
  exact mem_take_filter (fun r => r.test gloss) CATEGORY_RULES 3 n r ruleLabels_nodup hr

theorem test_of_containsWholeWord (w gloss : String) (r : Rule) (hw : w ∈ r.terms)
    (h : containsWholeWord w gloss = true) : r.test gloss = true := by
  simp only [containsWholeWord, List.any_eq_true, Bool.and_eq_true] at h
  obtain ⟨e, he, ⟨h1, h2⟩, h3⟩ := h
  simp only [Rule.test, Rule.matchAt, List.any_eq_true, Bool.and_eq_true]
  exact ⟨e, he, h1, w, hw, h2, h3⟩

/-- C18. A label of the rule table occurs in `categorizeSense gloss` exactly when its rule
matches the gloss and fewer than three of the rules before it in the table match. So the
first three labels (Physical, Mental, Finance) occur exactly when their rule matches, and each
of the last four (Place, Sound, Value, Action) is dropped for some gloss its rule matches. -/
theorem category_kept_iff (gloss : String) :
    (∀ (n : Nat) (r : Rule), CATEGORY_RULES[n]? = some r →
      (r.cat ∈ categorizeSense gloss ↔
        r.test gloss = true ∧
          ((CATEGORY_RULES.take n).filter (fun r => r.test gloss)).length < 3)) ∧
    (∀ (n : Nat) (r : Rule), n < 3 → CATEGORY_RULES[n]? = some r →
      (r.cat ∈ categorizeSense gloss ↔ r.test gloss = true)) ∧
    (∀ (n : Nat) (r : Rule), 3 ≤ n → CATEGORY_RULES[n]? = some r →
      ∃ g, r.test g = true ∧ r.cat ∉ categorizeSense g) ∧
    (CATEGORY_RULES.take 3).map (fun r => r.cat) = ["Physical", "Mental", "Finance"] ∧
    (CATEGORY_RULES.drop 3).map (fun r => r.cat) = ["Place", "Sound", "Value", "Action"] := by
  refine ⟨fun n r hr => mem_categorizeSense_iff gloss n r hr, ?_, ?_, rfl, rfl⟩
  · intro n r hn hr
    rw [mem_categorizeSense_iff gloss n r hr]
    constructor
    · exact fun h => h.1
    · intro h
      refine ⟨h, ?_⟩
      have h1 := List.length_filter_le (fun r => r.test gloss) (CATEGORY_RULES.take n)
      have h2 := List.length_take_le n CATEGORY_RULES
      omega
  · intro n r hn hr
    have hlt : n < 7 := by
      have := (List.getElem?_eq_some_iff.1 hr).1
      simpa [CATEGORY_RULES] using this
    refine ⟨"move idea bank sound good", ?_⟩
    interval_cases n
    all_goals
      simp only [CATEGORY_RULES, List.getElem?_cons_succ, List.getElem?_cons_zero,
        Option.some.injEq] at hr
      subst hr
      decide

/-- Witness of C18: a gloss matching all seven rules keeps Finance and drops Place. -/
theorem category_kept_iff_witness :
    ("Finance" ∈ categorizeSense "move idea bank sound good" ↔
      (ruleAt 2).test "move idea bank sound good" = true) ∧
    ("Place" ∈ categorizeSense "move idea bank sound good" ↔
      (ruleAt 3).test "move idea bank sound good" = true ∧
        ((CATEGORY_RULES.take 3).filter
          (fun r => r.test "move idea bank sound good")).length < 3) :=
  ⟨(category_kept_iff "move idea bank sound good").2.1 2 (ruleAt 2) (by decide) rfl,
    (category_kept_iff "move idea bank sound good").1 3 (ruleAt 3) rfl⟩

/-- C17 (counterexample). The gloss `grab the idea of a river bank` contains `bank` and `river`
as whole words, but it also matches Physical and Mental, so the cap leaves
Physical, Mental, Finance: Place is not among its categories. -/
theorem river_bank_gloss_without_place :
    containsWholeWord "bank" "grab the idea of a river bank" = true ∧
    containsWholeWord "river" "grab the idea of a river bank" = true ∧
    categorizeSense "grab the idea of a river bank" = ["Physical", "Mental", "Finance"] ∧
    "Place" ∉ categorizeSense "grab the idea of a river bank" := by
  decide

/-- C17 (amended). For a gloss that contains both `bank` and `river` as whole words, in any
letter case, the Finance and the Place rules both match; Finance is among the categories, and
Place is among them exactly when the Physical and Mental rules do not both match. -/
theorem river_bank_categories (gloss : String)
    (hbank : containsWholeWord "bank" gloss = true)
    (hriver : containsWholeWord "river" gloss = true) :
    "Finance" ∈ matchingLabels gloss ∧ "Place" ∈ matchingLabels gloss ∧
    "Finance" ∈ categorizeSense gloss ∧
    ("Place" ∈ categorizeSense gloss ↔
      ¬ ("Physical" ∈ matchingLabels gloss ∧ "Mental" ∈ matchingLabels gloss)) := by
  have hlabel : ∀ (n : Nat), n < 7 →
      ((ruleAt n).cat ∈ matchingLabels gloss ↔ (ruleAt n).test gloss = true) := by
    intro n hn
    rw [matchingLabels_eq]
    have h := mem_take_filter (fun r => r.test gloss) CATEGORY_RULES 7 n (ruleAt n)
      ruleLabels_nodup (by interval_cases n <;> rfl)
    rw [List.take_of_length_le] at h
    · rw [h]
      constructor
      · exact fun h => h.1
      · intro ht
        refine ⟨ht, ?_⟩
        have h1 := List.length_filter_le (fun r => r.test gloss) (CATEGORY_RULES.take n)
        have h2 := List.length_take_le n CATEGORY_RULES
        omega
    · rw [List.length_map]
      exact List.length_filter_le _ _
  have hfin : (ruleAt 2).test gloss = true :=
    test_of_containsWholeWord "bank" gloss (ruleAt 2) (by decide) hbank
  have hplace : (ruleAt 3).test gloss = true :=
    test_of_containsWholeWord "river" gloss (ruleAt 3) (by decide) hriver
  have h0 := hlabel 0 (by norm_num)
  have h1 := hlabel 1 (by norm_num)
  have h2 := hlabel 2 (by norm_num)
  have h3 := hlabel 3 (by norm_num)
  have c2 := mem_categorizeSense_iff gloss 2 (ruleAt 2) rfl
  have c3 := mem_categorizeSense_iff gloss 3 (ruleAt 3) rfl
  have e0 : (ruleAt 0).cat = "Physical" := rfl
  have e1 : (ruleAt 1).cat = "Mental" := rfl
  have e2 : (ruleAt 2).cat = "Finance" := rfl
  have e3 : (ruleAt 3).cat = "Place" := rfl
  rw [e0] at h0
  rw [e1] at h1
  rw [e2] at h2 c2
  rw [e3] at h3 c3
  refine ⟨h2.2 hfin, h3.2 hplace, ?_, ?_⟩
  · rw [c2]
    refine ⟨hfin, ?_⟩
    have h1 := List.length_filter_le (fun r => r.test gloss) (CATEGORY_RULES.take 2)
    have h2 := List.length_take_le 2 CATEGORY_RULES
    omega
  · rw [c3, h0, h1]
    have htake : CATEGORY_RULES.take 3 = [ruleAt 0, ruleAt 1, ruleAt 2] := rfl
    rw [htake]
    cases hp : (ruleAt 0).test gloss <;> cases hm : (ruleAt 1).test gloss <;>
      simp [List.filter_cons, hp, hm, hfin, hplace]

/-- Witness of C17 (amended): a gloss naming the bank of a river. -/
theorem river_bank_categories_witness :
    "Finance" ∈ categorizeSense "The sloping bank of a River" ∧
    ("Place" ∈ categorizeSense "The sloping bank of a River" ↔
      ¬ ("Physical" ∈ matchingLabels "The sloping bank of a River" ∧
        "Mental" ∈ matchingLabels "The sloping bank of a River")) :=
  (river_bank_categories "The sloping bank of a River" (by decide) (by decide)).2.2

/-! The retained entries, by index -/

theorem keepsAt_zero (seen : List String) (g : String) (t : List String) :
    keepsAt seen (g :: t) 0 = decide (g ≠ "" ∧ g ∉ seen) := by
  simp [keepsAt]

theorem keepsAt_succ_discard (seen : List String) (g : String) (t : List String) (j : Nat)
    (h : g = "" ∨ g ∈ seen) : keepsAt seen (g :: t) (j + 1) = keepsAt seen t j := by
  simp only [keepsAt, List.getD_cons_succ, List.take_succ_cons, List.mem_cons, not_or]
  congr 1
  apply propext
  constructor
  · rintro ⟨h1, h2, _, h4⟩; exact ⟨h1, h2, h4⟩
  · rintro ⟨h1, h2, h4⟩
    refine ⟨h1, h2, ?_, h4⟩
    rintro rfl
    rcases h with h | h
    · exact h1 h
    · exact h2 h

theorem keepsAt_succ_keep (seen : List String) (g : String) (t : List String) (j : Nat) :
    keepsAt seen (g :: t) (j + 1) = keepsAt (setAdd seen g) t j := by
  simp only [keepsAt, List.getD_cons_succ, List.take_succ_cons, List.mem_cons, not_or,
    mem_setAdd]
  congr 1
  apply propext
  constructor
  · rintro ⟨h1, h2, h3, h4⟩; exact ⟨h1, ⟨h2, h3⟩, h4⟩
  · rintro ⟨h1, ⟨h2, h3⟩, h4⟩; exact ⟨h1, h2, h3, h4⟩

theorem keptFrom_eq_filter (es : List Entry) : ∀ (i : Nat) (seen : List String),
    keptFrom i es seen
      = ((List.range es.length).filter (keepsAt seen (es.map normalizeGloss))).map
          (fun j => (i + j, (es.map normalizeGloss).getD j "")) := by
  induction es with
  | nil => intro i seen; simp [keptFrom]
  | cons s rest ih =>
    intro i seen
    simp only [keptFrom, List.length_cons, List.range_succ_eq_map, List.map_cons,
      List.filter_cons, keepsAt_zero]
    by_cases hd : normalizeGloss s = "" ∨ normalizeGloss s ∈ seen
    · have hz : ¬ (normalizeGloss s ≠ "" ∧ normalizeGloss s ∉ seen) := by
        intro h; rcases hd with h' | h'
        · exact h.1 h'
        · exact h.2 h'
      have hdec : ¬ decide (normalizeGloss s ≠ "" ∧ normalizeGloss s ∉ seen) = true := by
        simpa using hz
      have hf : (keepsAt seen (normalizeGloss s :: rest.map normalizeGloss)) ∘ Nat.succ
          = keepsAt seen (rest.map normalizeGloss) := by
        funext j
        exact keepsAt_succ_discard seen _ _ j hd
      rw [if_pos hd, ih, if_neg hdec, List.filter_map, hf, List.map_map]
      apply List.map_congr_left
      intro j _
      simp only [Function.comp, Nat.succ_eq_add_one, List.getD_cons_succ]
      congr 1
      omega
    · have hz : normalizeGloss s ≠ "" ∧ normalizeGloss s ∉ seen := by
        rw [not_or] at hd; exact hd
      have hdec : decide (normalizeGloss s ≠ "" ∧ normalizeGloss s ∉ seen) = true :=
        decide_eq_true hz
      have hf : (keepsAt seen (normalizeGloss s :: rest.map normalizeGloss)) ∘ Nat.succ
          = keepsAt (setAdd seen (normalizeGloss s)) (rest.map normalizeGloss) := by
        funext j
        exact keepsAt_succ_keep seen _ _ j
      rw [if_neg hd, ih, if_pos hdec, List.filter_map, hf, List.map_cons, List.map_map]
      congr 1
      apply List.map_congr_left
      intro j _
      simp only [Function.comp, Nat.succ_eq_add_one, List.getD_cons_succ]
      congr 1
      omega

theorem keepsAt_nil (gs : List String) : keepsAt [] gs = retainedAt gs := by
  funext j
  simp [keepsAt, retainedAt]

theorem emittedSenses_eq_retained (es : List Entry) :
    emittedSenses es
      = (retainedIndices (es.map normalizeGloss)).map
          (fun j => mkSense j ((es.map normalizeGloss).getD j "")) := by
  rw [emittedSenses_eq, keptFrom_eq_filter, keepsAt_nil, List.map_map]
  simp only [retainedIndices, List.length_map]
  apply List.map_congr_left
  intro j _
  simp [Function.comp]

theorem resolved_eq_emitted (w : String) (es : List Entry) :
    (resolveSenses w es).filter (fun s => decide (s.conf ≠ 0)) = emittedSenses es := by
  rw [resolveSenses_eq, emittedSenses_eq]
  split
  · rename_i h
    rw [h]
    simp [fallbackSense]
  · rw [List.filter_eq_self]
    intro s hs
    obtain ⟨p, _, rfl⟩ := List.mem_map.1 hs
    simp [mkSense]

theorem buildLexeme_resolvedSenses (env : Env) (word : Option String) (lex : Lexeme)
    (results : Option (List Entry))
    (hlex : (buildLexeme env word).result = .ok lex)
    (hlookup : env.lookup (env.toLowerCase (word.getD "")) = .ok results) :
    resolvedSenses lex = emittedSenses (results.getD []) := by
  obtain ⟨results', syn, ant, h1, _, _, h4⟩ := buildLexeme_ok env word lex hlex
  rw [hlookup] at h1
  cases h1
  subst h4
  exact resolved_eq_emitted _ _

theorem mem_take_iff_getD (gs : List String) (j : Nat) (x : String) (hj : j ≤ gs.length) :
    x ∈ gs.take j ↔ ∃ j', j' < j ∧ gs.getD j' "" = x := by
  rw [List.mem_take_iff_getElem]
  constructor
  · rintro ⟨i, hi, rfl⟩
    have hi' : i < j ∧ i < gs.length := by simpa using hi
    exact ⟨i, hi'.1, List.getD_eq_getElem _ _ hi'.2⟩
  · rintro ⟨i, hi, rfl⟩
    have hlt : i < gs.length := by omega
    exact ⟨i, by simpa using ⟨hi, hlt⟩, (List.getD_eq_getElem _ _ hlt).symm⟩

theorem mem_retainedIndices (gs : List String) (j : Nat) :
    j ∈ retainedIndices gs ↔
      j < gs.length ∧ gs.getD j "" ≠ "" ∧ ∀ j', j' < j → gs.getD j' "" ≠ gs.getD j "" := by
  simp only [retainedIndices, List.mem_filter, List.mem_range, retainedAt, decide_eq_true_eq]
  constructor
  · rintro ⟨h1, h2, h3⟩
    refine ⟨h1, h2, ?_⟩
    intro j' hj' heq
    exact h3 ((mem_take_iff_getD gs j _ (by omega)).2 ⟨j', hj', heq⟩)
  · rintro ⟨h1, h2, h3⟩
    refine ⟨h1, h2, ?_⟩
    intro hm
    obtain ⟨j', hj', heq⟩ := (mem_take_iff_getD gs j _ (by omega)).1 hm
    exact h3 j' hj' heq

theorem exists_first_occurrence (g : String) : ∀ (gs : List String), g ∈ gs →
    ∃ j, j < gs.length ∧ gs.getD j "" = g ∧ ∀ j', j' < j → gs.getD j' "" ≠ g := by
  intro gs
  induction gs with
  | nil => intro h; simp at h
  | cons a t ih =>
    intro h
    by_cases ha : a = g
    · exact ⟨0, by simp, by simp [ha], by intro j' hj'; omega⟩
    · have ht : g ∈ t := by
        rcases List.mem_cons.1 h with h | h
        · exact absurd h.symm ha
        · exact h
      obtain ⟨j, hj, hg, hfirst⟩ := ih ht
      refine ⟨j + 1, by simpa using hj, by simpa using hg, ?_⟩
      intro j' hj'
      cases j' with
      | zero => simpa using ha
      | succ j' => simpa using hfirst j' (by omega)

theorem retainedIndices_pairwise (gs : List String) :
    (retainedIndices gs).Pairwise (fun a b => a < b) :=
  (List.pairwise_lt_range gs.length).filter _

theorem filter_range_position (q : Nat → Bool) : ∀ (n k i : Nat),
    ((List.range n).filter q)[k]? = some i → ((List.range i).filter q).length = k := by
  intro n
  induction n with
  | zero => intro k i h; simp at h
  | succ n ih =>
    intro k i h
    rw [List.range_succ, List.filter_append] at h
    by_cases hk : k < ((List.range n).filter q).length
    · rw [List.getElem?_append_left hk] at h
      exact ih k i h
    · rw [List.getElem?_append_right (by omega)] at h
      cases hq : q n with
      | false => simp [hq] at h
      | true =>
        simp only [List.filter_cons, hq, if_true, List.filter_nil] at h
        have hmem := List.getElem?_mem h
        have hin : i = n := by simpa using hmem
        have hlen := (List.getElem?_eq_some_iff.1 h).1
        simp only [List.length_singleton] at hlen
        subst hin
        omega

theorem emitted_glosses (es : List Entry) :
    (emittedSenses es).map Sense.gloss
      = (retainedIndices (es.map normalizeGloss)).map
          (fun j => (es.map normalizeGloss).getD j "") := by
  rw [emittedSenses_eq_retained, List.map_map]
  apply List.map_congr_left
  intro j _
  simp [Function.comp, mkSense]

theorem emitted_ids (es : List Entry) :
    (emittedSenses es).map Sense.id
      = (retainedIndices (es.map normalizeGloss)).map (fun j => "s" ++ toString j) := by
  rw [emittedSenses_eq_retained, List.map_map]
  apply List.map_congr_left
  intro j _
  simp [Function.comp, mkSense]

theorem retained_glosses_facts (gs : List String) :
    (∀ j, j < gs.length →
      (j ∉ retainedIndices gs ↔
        gs.getD j "" = "" ∨ ∃ j', j' < j ∧ gs.getD j' "" = gs.getD j "")) ∧
    (∀ g, g ≠ "" → g ∈ gs → g ∈ (retainedIndices gs).map (fun j => gs.getD j "")) ∧
    (∀ g ∈ (retainedIndices gs).map (fun j => gs.getD j ""), g ≠ "" ∧ g ∈ gs) ∧
    ((retainedIndices gs).map (fun j => gs.getD j "")).Nodup := by
  refine ⟨?_, ?_, ?_, ?_⟩
  · intro j hj
    rw [mem_retainedIndices]
    constructor
    · intro hnot
      by_cases he : gs.getD j "" = ""
      · exact Or.inl he
      · right
        by_contra hex
        apply hnot
        refine ⟨hj, he, ?_⟩
        intro j' hj' heq
        exact hex ⟨j', hj', heq⟩
    · rintro (he | ⟨j', hj', heq⟩) ⟨_, h2, h3⟩
      · exact h2 he
      · exact h3 j' hj' heq
  · intro g hg hmem
    obtain ⟨j, hj, hjg, hfirst⟩ := exists_first_occurrence g gs hmem
    refine List.mem_map.2 ⟨j, ?_, hjg⟩
    rw [mem_retainedIndices]
    refine ⟨hj, by rw [hjg]; exact hg, ?_⟩
    intro j' hj'
    rw [hjg]
    exact hfirst j' hj'
  · intro g hg
    obtain ⟨j, hj, rfl⟩ := List.mem_map.1 hg
    obtain ⟨h1, h2, _⟩ := (mem_retainedIndices gs j).1 hj
    refine ⟨h2, ?_⟩
    rw [List.getD_eq_getElem _ _ h1]
    exact List.getElem_mem _
  · rw [List.Nodup, List.pairwise_map]
    refine (retainedIndices_pairwise gs).imp_of_mem ?_
    intro a b _ hb hab heq
    exact ((mem_retainedIndices gs b).1 hb).2.2 a hab heq

/-- C15. The glosses of the resolved senses returned by `buildLexeme` are the normalized
glosses of the retained entries, in the original order, where an entry is discarded exactly
when its normalized gloss is empty or is the normalized gloss of an earlier entry; every
non-empty normalized gloss of the lookup result occurs exactly once among them, and nothing
else occurs. -/
theorem resolved_glosses_first_occurrences (env : Env) (word : Option String) (lex : Lexeme)
    (results : Option (List Entry))
    (hlex : (buildLexeme env word).result = .ok lex)
    (hlookup : env.lookup (env.toLowerCase (word.getD "")) = .ok results) :
    (resolvedSenses lex).map Sense.gloss
        = (retainedIndices ((results.getD []).map normalizeGloss)).map
            (fun j => ((results.getD []).map normalizeGloss).getD j "") ∧
    (∀ j, j < (results.getD []).length →
      (j ∉ retainedIndices ((results.getD []).map normalizeGloss) ↔
        ((results.getD []).map normalizeGloss).getD j "" = "" ∨
          ∃ j', j' < j ∧ ((results.getD []).map normalizeGloss).getD j' ""
            = ((results.getD []).map normalizeGloss).getD j "")) ∧
    (∀ g, g ≠ "" → g ∈ (results.getD []).map normalizeGloss →
      ((resolvedSenses lex).map Sense.gloss).count g = 1) ∧
    (∀ g ∈ (resolvedSenses lex).map Sense.gloss,
      g ≠ "" ∧ g ∈ (results.getD []).map normalizeGloss) := by
  have hres := buildLexeme_resolvedSenses env word lex results hlex hlookup
  have hgl : (resolvedSenses lex).map Sense.gloss
      = (retainedIndices ((results.getD []).map normalizeGloss)).map
          (fun j => ((results.getD []).map normalizeGloss).getD j "") := by
    rw [hres, emitted_glosses]
  have hfacts := retained_glosses_facts ((results.getD []).map normalizeGloss)
  rw [List.length_map] at hfacts
  refine ⟨hgl, hfacts.1, ?_, ?_⟩
  · intro g hg hmem
    rw [hgl]
    exact List.count_eq_one_of_mem hfacts.2.2.2 (hfacts.2.1 g hg hmem)
  · intro g hg
    rw [hgl] at hg
    exact hfacts.2.2.1 g hg

/-- Witness of C15: four entries; the second is empty after normalisation and the fourth
repeats the first. -/
theorem resolved_glosses_first_occurrences_witness :
    (resolvedSenses
        { id := "bank", language := "en",
          senses := resolveSenses "bank"
            [⟨some "a  bank"⟩, ⟨some " \n"⟩, ⟨some "shore"⟩, ⟨some " a bank "⟩],
          synonyms := [], antonyms := [] }).map Sense.gloss
      = ["a bank", "shore"] :=
  (resolved_glosses_first_occurrences
    (exampleEnv
      (.ok (some [⟨some "a  bank"⟩, ⟨some " \n"⟩, ⟨some "shore"⟩, ⟨some " a bank "⟩]))
      (fun _ => .response false (.error (.thrown "no body"))))
    (some "bank")
    { id := "bank", language := "en",
      senses := resolveSenses "bank"
        [⟨some "a  bank"⟩, ⟨some " \n"⟩, ⟨some "shore"⟩, ⟨some " a bank "⟩],
      synonyms := [], antonyms := [] }
    (some [⟨some "a  bank"⟩, ⟨some " \n"⟩, ⟨some "shore"⟩, ⟨some " a bank "⟩]) rfl rfl).1

/-- C19. The id of the k-th resolved sense is `s` followed by the index `i`, in the raw lookup
result, of the first entry whose normalized gloss is the gloss of the sense; the indices are
strictly increasing along the senses; and `i = k` exactly when every entry before index `i` is
retained (no discarded entry precedes the entry of the sense). -/
theorem sense_id_first_entry (env : Env) (word : Option String) (lex : Lexeme)
    (results : Option (List Entry)) (k : Nat) (s : Sense)
    (hlex : (buildLexeme env word).result = .ok lex)
    (hlookup : env.lookup (env.toLowerCase (word.getD "")) = .ok results)
    (hs : (resolvedSenses lex)[k]? = some s) :
    ((resolvedSenses lex).map Sense.id
        = (retainedIndices ((results.getD []).map normalizeGloss)).map
            (fun i => "s" ++ toString i) ∧
      (retainedIndices ((results.getD []).map normalizeGloss)).Pairwise (fun a b => a < b)) ∧
    ∃ i, (retainedIndices ((results.getD []).map normalizeGloss))[k]? = some i ∧
      s.id = "s" ++ toString i ∧
      ((results.getD [])[i]?).map normalizeGloss = some s.gloss ∧
      (∀ j, j < i → ((results.getD [])[j]?).map normalizeGloss ≠ some s.gloss) ∧
      (i = k ↔ ∀ j, j < i → retainedAt ((results.getD []).map normalizeGloss) j = true) := by
  have hres := buildLexeme_resolvedSenses env word lex results hlex hlookup
  refine ⟨⟨by rw [hres, emitted_ids], retainedIndices_pairwise _⟩, ?_⟩
  rw [hres, emittedSenses_eq_retained, List.getElem?_map] at hs
  cases hi : (retainedIndices ((results.getD []).map normalizeGloss))[k]? with
  | none => rw [hi] at hs; simp at hs
  | some i =>
    rw [hi] at hs
    simp only [Option.map_some', Option.some.injEq] at hs
    subst hs
    have hmem := (mem_retainedIndices _ i).1 (List.getElem?_mem hi)
    have hlt : i < (results.getD []).length := by simpa using hmem.1
    have hget : ∀ j, j < (results.getD []).length →
        ((results.getD [])[j]?).map normalizeGloss
          = some (((results.getD []).map normalizeGloss).getD j "") := by
      intro j hj
      rw [List.getD_eq_getElem _ _ (by simpa using hj)]
      simp [List.getElem?_eq_getElem hj]
    refine ⟨i, rfl, rfl, ?_, ?_, ?_⟩
    · simpa [mkSense] using hget i hlt
    · intro j hj
      rw [hget j (by omega)]
      intro heq
      exact hmem.2.2 j hj (by simpa [mkSense] using heq)
    · have hpos := filter_range_position
        (retainedAt ((results.getD []).map normalizeGloss)) _ k i hi
      constructor
      · intro hik j hj
        have hall : ((List.range i).filter
            (retainedAt ((results.getD []).map normalizeGloss))).length
              = (List.range i).length := by
          rw [hpos, List.length_range, hik]
        exact List.filter_length_eq_length.1 hall j (List.mem_range.2 hj)
      · intro hall
        have hlen : ((List.range i).filter
            (retainedAt ((results.getD []).map normalizeGloss))).length
              = (List.range i).length :=
          List.filter_length_eq_length.2 (fun j hj => hall j (List.mem_range.1 hj))
        rw [hpos, List.length_range] at hlen
        exact hlen.symm

/-- Witness of C19: of four entries the second is discarded as empty and the fourth as a
repetition; the second sense has id `s2`. -/
theorem sense_id_first_entry_witness :
    ∃ i, (retainedIndices
          (([⟨some "a  bank"⟩, ⟨some " \n"⟩, ⟨some "shore"⟩, ⟨some " a bank "⟩] :
            List Entry).map normalizeGloss))[1]? = some i ∧
      (mkSense 2 "shore").id = "s" ++ toString i ∧
      ((([⟨some "a  bank"⟩, ⟨some " \n"⟩, ⟨some "shore"⟩, ⟨some " a bank "⟩] :
          List Entry)[i]?).map normalizeGloss = some (mkSense 2 "shore").gloss) ∧
      (∀ j, j < i →
        (([⟨some "a  bank"⟩, ⟨some " \n"⟩, ⟨some "shore"⟩, ⟨some " a bank "⟩] :
          List Entry)[j]?).map normalizeGloss ≠ some (mkSense 2 "shore").gloss) ∧
      (i = 1 ↔ ∀ j, j < i →
        retainedAt
          (([⟨some "a  bank"⟩, ⟨some " \n"⟩, ⟨some "shore"⟩, ⟨some " a bank "⟩] :
            List Entry).map normalizeGloss) j = true) :=
  (sense_id_first_entry
    (exampleEnv
      (.ok (some [⟨some "a  bank"⟩, ⟨some " \n"⟩, ⟨some "shore"⟩, ⟨some " a bank "⟩]))
      (fun _ => .response false (.error (.thrown "no body"))))
    (some "bank")
    { id := "bank", language := "en",
      senses := resolveSenses "bank"
        [⟨some "a  bank"⟩, ⟨some " \n"⟩, ⟨some "shore"⟩, ⟨some " a bank "⟩],
      synonyms := [], antonyms := [] }
    (some [⟨some "a  bank"⟩, ⟨some " \n"⟩, ⟨some "shore"⟩, ⟨some " a bank "⟩])
    1 (mkSense 2 "shore") rfl rfl
    (by
      show ((resolveSenses "bank"
        [⟨some "a  bank"⟩, ⟨some " \n"⟩, ⟨some "shore"⟩, ⟨some " a bank "⟩]).filter
          (fun s => decide (s.conf ≠ 0)))[1]? = some (mkSense 2 "shore")
      rw [resolved_eq_emitted]
      rfl)).2

/-! Normal form of the glosses -/

theorem collapseFrom_spec : ∀ (cs : List Char) (inRun : Bool),
    (∀ c ∈ collapseFrom inRun cs, isWhiteSpace c = true → c = ' ') ∧
    (collapseFrom inRun cs).Chain'
      (fun a b => ¬ (isWhiteSpace a = true ∧ isWhiteSpace b = true)) ∧
    (inRun = true → ∀ c, (collapseFrom inRun cs).head? = some c → isWhiteSpace c = false) := by
  intro cs
  induction cs with
  | nil => intro inRun; simp [collapseFrom]
  | cons c t ih =>
    intro inRun
    by_cases hc : isWhiteSpace c = true
    · cases inRun with
      | true =>
        simp only [collapseFrom, hc, if_true]
        obtain ⟨h1, h2, h3⟩ := ih true
        exact ⟨h1, h2, fun _ => h3 rfl⟩
      | false =>
        simp only [collapseFrom, hc, if_true, Bool.false_eq_true, if_false]
        obtain ⟨h1, h2, h3⟩ := ih true
        refine ⟨?_, ?_, by simp⟩
        · intro x hx hw
          rcases List.mem_cons.1 hx with rfl | hx
          · rfl
          · exact h1 x hx hw
        · refine List.Chain'.cons' h2 ?_
          intro y hy hand
          have := h3 rfl y (by simpa using hy)
          rw [this] at hand
          exact absurd hand.2 (by simp)
    · simp only [collapseFrom, hc, if_false, Bool.false_eq_true]
      obtain ⟨h1, h2, _⟩ := ih false
      refine ⟨?_, ?_, ?_⟩
      · intro x hx hw
        rcases List.mem_cons.1 hx with rfl | hx
        · exact absurd hw hc
        · exact h1 x hx hw
      · refine List.Chain'.cons' h2 ?_
        intro y _ hand
        exact hc hand.1
      · intro _ x hx
        simp only [List.head?_cons, Option.some.injEq] at hx
        subst hx
        simpa using hc

theorem trim_initial (cs : List Char) : trim cs <+: cs.dropWhile isWhiteSpace := by
  unfold trim
  rw [← List.reverse_suffix, List.reverse_reverse]
  exact List.dropWhile_suffix _

theorem trim_within (cs : List Char) : trim cs <:+: cs :=
  (trim_initial cs).isInfix.trans (List.dropWhile_suffix _).isInfix

theorem head?_dropWhile_isWhiteSpace (cs : List Char) (c : Char)
    (h : (cs.dropWhile isWhiteSpace).head? = some c) : isWhiteSpace c = false := by
  have := List.head?_dropWhile_not isWhiteSpace cs
  rw [h] at this
  simpa using this

theorem trim_head (cs : List Char) (c : Char) (h : (trim cs).head? = some c) :
    isWhiteSpace c = false := by
  apply head?_dropWhile_isWhiteSpace cs c
  obtain ⟨t, ht⟩ := trim_initial cs
  rw [← ht]
  cases htr : trim cs with
  | nil => rw [htr] at h; simp at h
  | cons a r => rw [htr] at h; simpa using h

theorem trim_last (cs : List Char) (c : Char) (h : (trim cs).getLast? = some c) :
    isWhiteSpace c = false := by
  unfold trim at h
  rw [List.getLast?_reverse] at h
  exact head?_dropWhile_isWhiteSpace _ c h

theorem dropWhile_isWhiteSpace_id (cs : List Char)
    (h : ∀ c, cs.head? = some c → isWhiteSpace c = false) :
    cs.dropWhile isWhiteSpace = cs := by
  cases cs with
  | nil => rfl
  | cons c t =>
    have hc := h c rfl
    exact List.dropWhile_cons_of_neg (by simp [hc])

theorem trim_id (cs : List Char)
    (hhead : ∀ c, cs.head? = some c → isWhiteSpace c = false)
    (hlast : ∀ c, cs.getLast? = some c → isWhiteSpace c = false) : trim cs = cs := by
  unfold trim
  rw [dropWhile_isWhiteSpace_id cs hhead,
    dropWhile_isWhiteSpace_id cs.reverse (by simpa using hlast), List.reverse_reverse]

theorem collapseFrom_id : ∀ (cs : List Char),
    (∀ c ∈ cs, isWhiteSpace c = true → c = ' ') →
    cs.Chain' (fun a b => ¬ (isWhiteSpace a = true ∧ isWhiteSpace b = true)) →
    collapseFrom false cs = cs ∧
      ((∀ c, cs.head? = some c → isWhiteSpace c = false) → collapseFrom true cs = cs) := by
  intro cs
  induction cs with
  | nil => intro _ _; simp [collapseFrom]
  | cons c t ih =>
    intro hsp hch
    rw [List.chain'_cons'] at hch
    obtain ⟨ih1, ih2⟩ := ih (fun x hx => hsp x (List.mem_cons_of_mem _ hx)) hch.2
    by_cases hc : isWhiteSpace c = true
    · have hspace : c = ' ' := hsp c (List.mem_cons_self _ _) hc
      constructor
      · simp only [collapseFrom, hc, if_true, Bool.false_eq_true, if_false]
        rw [ih2, hspace]
        intro y hy
        have := hch.1 y (by simpa using hy)
        simpa [hc] using this
      · intro hhead
        have := hhead c rfl
        rw [hc] at this
        exact absurd this (by simp)
    · simp only [collapseFrom, hc, if_false, ih1, Bool.false_eq_true, implies_true, and_self]

/-- C16. The gloss of every resolved sense returned by `buildLexeme` is in normal form (not
empty, no whitespace at either end, every whitespace character a space with no whitespace next
to it), and normalising it again returns it unchanged. -/
theorem resolved_gloss_normal_form (env : Env) (word : Option String) (lex : Lexeme)
    (s : Sense)
    (hlex : (buildLexeme env word).result = .ok lex)
    (hs : s ∈ resolvedSenses lex) :
    inNormalForm s.gloss.data ∧ normalizeGloss ⟨some s.gloss⟩ = s.gloss := by
  obtain ⟨results, syn, ant, h1, _, _, _⟩ := buildLexeme_ok env word lex hlex
  rw [buildLexeme_resolvedSenses env word lex results hlex h1, emittedSenses_eq] at hs
  obtain ⟨p, hp, rfl⟩ := List.mem_map.1 hs
  obtain ⟨_, hne, _, hget⟩ := keptFrom_mem _ _ _ _ hp
  obtain ⟨e, _, he⟩ := Option.map_eq_some'.1 hget
  have hdata : p.2.data = trim (collapseWhitespace (e.gloss.getD "").data) := by
    rw [← he]; rfl
  have hnonempty : p.2.data ≠ [] := by
    intro h0
    apply hne
    exact String.ext (by rw [h0])
  obtain ⟨c1, c2, _⟩ := collapseFrom_spec (e.gloss.getD "").data false
  have hform : inNormalForm p.2.data := by
    rw [hdata] at hnonempty ⊢
    refine ⟨hnonempty, trim_head _, trim_last _, ?_, ?_⟩
    · intro c hc
      exact c1 c ((trim_within _).subset hc)
    · exact List.Chain'.infix c2 (trim_within _)
  refine ⟨hform, ?_⟩
  obtain ⟨_, f2, f3, f4, f5⟩ := hform
  show String.mk (trim (collapseWhitespace p.2.data)) = p.2
  rw [collapseWhitespace, (collapseFrom_id p.2.data f4 f5).1, trim_id p.2.data f2 f3]

/-- Witness of C16: the gloss of the entry `"  sloping \t land\n beside a river "`. -/
theorem resolved_gloss_normal_form_witness :
    inNormalForm "sloping land beside a river".data ∧
      normalizeGloss ⟨some "sloping land beside a river"⟩ = "sloping land beside a river" :=
  resolved_gloss_normal_form
    (exampleEnv (.ok (some [⟨some "  sloping \t land\n beside a river "⟩]))
      (fun _ => .response false (.error (.thrown "no body"))))
    (some "bank")
    { id := "bank", language := "en",
      senses := resolveSenses "bank" [⟨some "  sloping \t land\n beside a river "⟩],
      synonyms := [], antonyms := [] }
    (mkSense 0 "sloping land beside a river") rfl
    (by
      show mkSense 0 "sloping land beside a river" ∈
        (resolveSenses "bank" [⟨some "  sloping \t land\n beside a river "⟩]).filter
          (fun s => decide (s.conf ≠ 0))
      rw [resolved_eq_emitted]
      exact List.mem_singleton.2 rfl)

end LexiMap
